import Mathlib

/-!
Verification of the storage and statistics core of the
mcp-azure-devops-analytics repository against its specification.

The numeric functions of the source (JavaScript numbers) are embedded with
rationals; array sorting via a comparator is embedded as `List.insertionSort`
(any sorted permutation of a list of numbers is the same list, so the choice
of sorting algorithm is observationally irrelevant here).
-/

/-- Ascending numeric sort; models `array.sort((a, b) => a - b)` on a copy. -/
def sortAsc (values : List ℚ) : List ℚ :=
  values.insertionSort (· ≤ ·)

/-- `AdvancedAnalyticsClient.calculatePercentile` (src/advancedAnalytics.ts:756-761):
`if (values.length === 0) return 0; const sorted = [...values].sort((a, b) => a - b);
const index = Math.ceil((percentile / 100) * sorted.length) - 1;
return sorted[Math.max(0, index)];`.
An out-of-range subscript yields `undefined` in the source, embedded as `none`. -/
def calculatePercentile (values : List ℚ) (percentile : ℚ) : Option ℚ :=
  if values.length = 0 then some 0
  else
    let sorted := sortAsc values
    let index : ℤ := ⌈percentile / 100 * (sorted.length : ℚ)⌉ - 1
    sorted.get? (max 0 index).toNat

/-- `MetricsAggregator.calculatePercentile` (src/metricsAggregator.ts:409-415).
Identical arithmetic, but the source writes `const sorted = values.sort(...)`,
which sorts the caller's array in place. The second component of the result is
the state of the caller's array after the call. -/
def calculatePercentileMA (values : List ℚ) (percentile : ℚ) : Option ℚ × List ℚ :=
  if values.length = 0 then (some 0, values)
  else
    let sorted := sortAsc values
    let index : ℤ := ⌈percentile / 100 * (sorted.length : ℚ)⌉ - 1
    (sorted.get? (max 0 index).toNat, sorted)

/-- `calculateAverage` (src/advancedAnalytics.ts / src/metricsAggregator.ts):
sum divided by length, `0` on empty input. -/
def averageQ (values : List ℚ) : ℚ :=
  if values.length = 0 then 0 else values.sum / values.length

/-- `AdvancedAnalyticsClient.calculateFailureTrend` (src/advancedAnalytics.ts:777-790),
applied to the computed rate sequence: halves split at `floor(n/2)`,
`secondAvg > firstAvg * 1.1` gives "increasing", `secondAvg < firstAvg * 0.9`
gives "decreasing", otherwise "stable"; fewer than 2 points give "stable". -/
def calculateFailureTrend (rates : List ℚ) : String :=
  if rates.length < 2 then "stable"
  else
    let firstHalf := rates.take (rates.length / 2)
    let secondHalf := rates.drop (rates.length / 2)
    let firstAvg := averageQ firstHalf
    let secondAvg := averageQ secondHalf
    if secondAvg > firstAvg * (11 / 10) then "increasing"
    else if secondAvg < firstAvg * (9 / 10) then "decreasing"
    else "stable"

/-- One Monte Carlo trial of `DeploymentMetricsCollector.runMonteCarloSimulation`
(src part_006:415-430): `let work = remainingWork; let sprints = 0;
while (work > 0) { const velocity = this.normalRandom(avgVelocity, stdDev);
work -= Math.max(0, velocity); sprints++; if (sprints > 100) break; }`.
`vel s` is the value returned by `normalRandom` at loop iteration `s`
(the random draw is an oracle parameter). -/
def mcTrial (vel : ℕ → ℚ) (work : ℚ) (sprints : ℕ) : ℕ :=
  if work ≤ 0 then sprints
  else if 100 < sprints + 1 then sprints + 1
  else mcTrial vel (work - max 0 (vel sprints)) (sprints + 1)
termination_by 101 - sprints
decreasing_by omega

/-- `DeploymentMetricsCollector.runMonteCarloSimulation` (src part_006:407-433):
runs `iterations` trials and returns the sprint counts sorted ascending
(`results.sort((a, b) => a - b)`). `vel i s` is the `normalRandom` draw of
trial `i`, loop iteration `s`. -/
def runMonteCarloSimulation (vel : ℕ → ℕ → ℚ) (remainingWork : ℚ)
    (iterations : ℕ) : List ℕ :=
  ((List.range iterations).map (fun i => mcTrial (vel i) remainingWork 0)).insertionSort (· ≤ ·)

/-- `DeploymentMetricsCollector.getPercentile` (src part_006:443-446):
`const index = Math.ceil((percentile / 100) * sortedValues.length) - 1;
return sortedValues[Math.max(0, index)];` — no empty-input guard, no upper
clamp; an out-of-range subscript yields `undefined`, embedded as `none`. -/
def getPercentile {α : Type} (sortedValues : List α) (percentile : ℚ) : Option α :=
  let index : ℤ := ⌈percentile / 100 * (sortedValues.length : ℚ)⌉ - 1
  sortedValues.get? (max 0 index).toNat

/-- The percentile-band step of `DeploymentMetricsCollector.predictDelivery`
(src part_006:249-259): run the simulation, then
`optimistic = getPercentile(simulations, 100 - confidenceLevel)`,
`likely = getPercentile(simulations, 50)`,
`pessimistic = getPercentile(simulations, confidenceLevel)`. -/
def predictDeliveryBands (vel : ℕ → ℕ → ℚ) (remainingWork : ℚ)
    (confidenceLevel : ℚ) (iterations : ℕ) : Option ℕ × Option ℕ × Option ℕ :=
  let simulations := runMonteCarloSimulation vel remainingWork iterations
  (getPercentile simulations (100 - confidenceLevel),
   getPercentile simulations 50,
   getPercentile simulations confidenceLevel)


/-! ### Decimal-representation helpers (for the id strings of the storage layer) -/

/-- Reference decimal digit list of a natural number (most significant first). -/
def decDigits (n : ℕ) : List Char :=
  if n < 10 then [Nat.digitChar n]
  else decDigits (n / 10) ++ [Nat.digitChar (n % 10)]
decreasing_by exact Nat.div_lt_self (by omega) (by omega)
/-- Decimal value of a digit character. -/
def charVal (c : Char) : ℕ :=
  if c = '0' then 0 else if c = '1' then 1 else if c = '2' then 2 else
  if c = '3' then 3 else if c = '4' then 4 else if c = '5' then 5 else
  if c = '6' then 6 else if c = '7' then 7 else if c = '8' then 8 else 9
/-- The hash function used by the witnesses. -/
def hashW (s : String) : String := "h" ++ s

/-! ### Storage model (src/storageManager.ts) -/

/-- The five storage namespaces of `StoredData.type`. -/
inductive NS where
  | cache
  | analysis
  | report
  | mapping
  | session
deriving DecidableEq

/-- JSON-like values: the `any` payloads, metadata values and dataset items of
the storage layer. `time n` stands for the ISO timestamp string of clock value
`n` (`new Date(n).toISOString()`; the encoding is injective, which is all the
source relies on). -/
inductive JVal where
  | str : String → JVal
  | num : Int → JVal
  | time : Nat → JVal
  | arr : List JVal → JVal
  | obj : List (String × JVal) → JVal
  | jnull : JVal

mutual

/-- Structural equality on values; models the `!==` comparison of the metadata
filter in `StorageManager.list` (the source only filters on primitive values,
for which JavaScript strict equality is structural). -/
def jeq : JVal → JVal → Bool
  | .str a, .str b => a == b
  | .num a, .num b => a == b
  | .time a, .time b => a == b
  | .arr a, .arr b => jeqList a b
  | .obj a, .obj b => jeqObj a b
  | .jnull, .jnull => true
  | _, _ => false

/-- Elementwise `jeq` on arrays. -/
def jeqList : List JVal → List JVal → Bool
  | [], [] => true
  | a :: as, b :: bs => jeq a b && jeqList as bs
  | _, _ => false

/-- Entrywise `jeq` on objects. -/
def jeqObj : List (String × JVal) → List (String × JVal) → Bool
  | [], [] => true
  | (k1, v1) :: as, (k2, v2) :: bs => k1 == k2 && jeq v1 v2 && jeqObj as bs
  | _, _ => false

end

/-- A parsed record file (`StoredData`, src/storageManager.ts:11-19).
`timestamp` and `expiresAt` are ISO strings in the source, embedded as the
clock values they encode (the encoding is monotone and injective). -/
structure StoredData where
  id : String
  type : NS
  timestamp : Nat
  expiresAt : Option Nat
  metadata : List (String × JVal)
  data : JVal

/-- The persisted state: per namespace, the record files of its directory
(file name without `.json`, in directory order) and the `key → id` map held in
its `index.json`. `StorageManager.list` skips `index.json` while scanning;
keeping the index in a separate field models exactly that. -/
structure Store where
  files : NS → List (String × StoredData)
  index : NS → List (String × String)

/-- A fresh storage directory. -/
def emptyStore : Store := ⟨fun _ => [], fun _ => []⟩

/-- Write an association, replacing an existing binding of the same key:
models both `fs.writeFile` of `${id}.json` and `index[key] = id`. -/
def upsert {β : Type} : List (String × β) → String → β → List (String × β)
  | [], k, v => [(k, v)]
  | (k0, v0) :: rest, k, v =>
    if k0 = k then (k, v) :: rest else (k0, v0) :: upsert rest k v

/-- Delete a file (`fs.unlink`). -/
def removeEntry {β : Type} (l : List (String × β)) (k : String) : List (String × β) :=
  l.filter (fun p => p.1 != k)

/-- Replace the directory of one namespace. -/
def setFiles (s : Store) (ns : NS) (l : List (String × StoredData)) : Store :=
  { s with files := fun n => if n = ns then l else s.files n }

/-- Replace the index of one namespace. -/
def setIndex (s : Store) (ns : NS) (l : List (String × String)) : Store :=
  { s with index := fun n => if n = ns then l else s.index n }

/-- `StorageManager.generateId` (src/storageManager.ts:376-379): the first 8
hex characters of `md5(key)` followed by `-` and `Date.now()`. The hash is a
parameter `md5` of the model. -/
def generateId (md5 : String → String) (key : String) (now : Nat) : String :=
  md5 key ++ "-" ++ Nat.repr now

/-- The expiry instant computed by `StorageManager.store`
(src/storageManager.ts:63-65): `ttl ? Date.now() + ttl : Date.now() + maxCacheAge`.
A `ttl` of `0` is falsy in JavaScript, so it falls back to the default age. -/
def expiryOf (maxCacheAge : Nat) (ttl : Option Nat) (now : Nat) : Nat :=
  match ttl with
  | some t => if t = 0 then now + maxCacheAge else now + t
  | none => now + maxCacheAge

/-- `StorageManager.store` (src/storageManager.ts:54-91). `jsize` abstracts
`JSON.stringify(data).length`; the clock reads within one call are modelled as
the single instant `now`. Returns the generated id and the new state. -/
def store (md5 : String → String) (jsize : JVal → Nat) (maxCacheAge : Nat)
    (s : Store) (type : NS) (key : String) (data : JVal)
    (metadata : List (String × JVal)) (ttl : Option Nat) (now : Nat) : String × Store :=
  let id := generateId md5 key now
  let storedData : StoredData :=
    { id := id, type := type, timestamp := now,
      expiresAt := some (expiryOf maxCacheAge ttl now),
      metadata := ("key", JVal.str key) :: ("size", JVal.num (jsize data)) :: metadata,
      data := data }
  let s1 := setFiles s type (upsert (s.files type) id storedData)
  let s2 := setIndex s1 type (upsert (s1.index type) key id)
  (id, s2)

/-- Negation of the expiry test
`storedData.expiresAt && new Date(storedData.expiresAt) < new Date()`. -/
def isLive (r : StoredData) (now : Nat) : Bool :=
  match r.expiresAt with
  | some e => ! decide (e < now)
  | none => true

/-- Shared tail of `StorageManager.retrieve`: check expiry of the record found
in file `name`; delete the file and return null when it has expired. -/
def checkExpired (s : Store) (type : NS) (name : String) (r : StoredData) (now : Nat) :
    Option StoredData × Store :=
  if isLive r now then (some r, s)
  else (none, setFiles s type (removeEntry (s.files type) name))

/-- `StorageManager.retrieve` (src/storageManager.ts:96-121): try `keyOrId` as
a file name, otherwise resolve it through the key index; a missing file or
index entry gives null; an expired record is deleted and gives null. -/
def retrieve (s : Store) (type : NS) (keyOrId : String) (now : Nat) :
    Option StoredData × Store :=
  match List.lookup keyOrId (s.files type) with
  | some r => checkExpired s type keyOrId r now
  | none =>
    match List.lookup keyOrId (s.index type) with
    | none => (none, s)
    | some id =>
      match List.lookup id (s.files type) with
      | none => (none, s)
      | some r => checkExpired s type id r now

/-- The record, if any, that the resolution procedure of `retrieve` finds and
that is unexpired: the claim-side notion of "an unexpired record resolves". -/
def liveResolution (s : Store) (type : NS) (keyOrId : String) (now : Nat) :
    Option StoredData :=
  match List.lookup keyOrId (s.files type) with
  | some r => if isLive r now then some r else none
  | none =>
    match List.lookup keyOrId (s.index type) with
    | none => none
    | some id =>
      match List.lookup id (s.files type) with
      | none => none
      | some r => if isLive r now then some r else none

/-- The metadata filter of `StorageManager.list` (src/storageManager.ts:153-162):
every filter entry must match the record's metadata under strict equality
(an absent metadata key fails the comparison). -/
def matchesFilter (filter : Option (List (String × JVal))) (r : StoredData) : Bool :=
  match filter with
  | none => true
  | some f => f.all (fun kv =>
      match List.lookup kv.1 r.metadata with
      | some w => jeq w kv.2
      | none => false)

/-- The scan loop of `StorageManager.list` (src/storageManager.ts:139-169) over
a directory listing: expired entries are unlinked and skipped; entries failing
the filter stay on disk but are not returned. Returns the collected records
(in scan order) and the surviving directory. -/
def scanDir (filter : Option (List (String × JVal))) (now : Nat) :
    List (String × StoredData) → List StoredData × List (String × StoredData)
  | [] => ([], [])
  | (name, r) :: rest =>
    let (items, keep) := scanDir filter now rest
    if isLive r now then
      if matchesFilter filter r then (r :: items, (name, r) :: keep)
      else (items, (name, r) :: keep)
    else (items, keep)

/-- `StorageManager.list` (src/storageManager.ts:126-174): scan the namespace
directory, then sort the collected records by timestamp descending
(`(a, b) => b.timestamp - a.timestamp`). -/
def list (s : Store) (type : NS) (filter : Option (List (String × JVal))) (now : Nat) :
    List StoredData × Store :=
  let (items, keep) := scanDir filter now (s.files type)
  (items.insertionSort (fun a b => b.timestamp ≤ a.timestamp), setFiles s type keep)

/-- The chunk-writing loop of `StorageManager.storeDataset`
(src/storageManager.ts:188-203): `for (let i = 0; i < data.length; i += chunkSize)`
stores `data.slice(i, i + chunkSize)` under key `${key}-chunk-${i}` with
metadata `{...metadata, datasetId, chunkIndex: i / chunkSize, totalChunks}`.
`clock n` is the `Date.now()` instant of the n-th store call of the enclosing
`storeDataset` invocation (`callIdx` counts them). The source loop does not
terminate for `chunkSize = 0`; the model is meaningful for `chunkSize ≥ 1`. -/
def storeChunksAux (md5 : String → String) (jsize : JVal → Nat) (maxCacheAge : Nat)
    (clock : Nat → Nat) (key datasetId : String) (chunkSize totalChunks : Nat)
    (metadata : List (String × JVal)) :
    Nat → Nat → List JVal → Store → List String × Store
  | _, _, [], s => ([], s)
  | callIdx, i, x :: xs, s =>
    if hcs : chunkSize = 0 then ([], s)
    else
      let (chunkId, s1) := store md5 jsize maxCacheAge s .cache
        (key ++ "-chunk-" ++ Nat.repr i) (JVal.arr ((x :: xs).take chunkSize))
        (("datasetId", JVal.str datasetId) :: ("chunkIndex", JVal.num ((i / chunkSize : Nat) : Int))
          :: ("totalChunks", JVal.num (totalChunks : Int)) :: metadata) none (clock callIdx)
      let (rest, s2) := storeChunksAux md5 jsize maxCacheAge clock key datasetId chunkSize
        totalChunks metadata (callIdx + 1) (i + chunkSize) ((x :: xs).drop chunkSize) s1
      (chunkId :: rest, s2)
termination_by _ _ l _ => l.length
decreasing_by simp [List.length_drop]; omega

/-- `StorageManager.storeDataset` (src/storageManager.ts:179-216): generate
`datasetId` from `dataset-${key}` (clock 0), write the chunks (clocks 1..n),
then write the manifest under key `dataset-${key}` (clock n+1);
`totalChunks = Math.ceil(data.length / chunkSize)`. -/
def storeDataset (md5 : String → String) (jsize : JVal → Nat) (maxCacheAge : Nat)
    (s : Store) (key : String) (data : List JVal) (chunkSize : Nat)
    (metadata : List (String × JVal)) (clock : Nat → Nat) : String × Store :=
  let datasetId := generateId md5 ("dataset-" ++ key) (clock 0)
  let totalChunks := (data.length + chunkSize - 1) / chunkSize
  let (chunks, s1) := storeChunksAux md5 jsize maxCacheAge clock key datasetId chunkSize
    totalChunks metadata 1 0 data s
  let manifest : JVal := JVal.obj [("datasetId", JVal.str datasetId),
    ("key", JVal.str key), ("totalItems", JVal.num (data.length : Int)),
    ("chunkSize", JVal.num (chunkSize : Int)), ("chunks", JVal.arr (chunks.map JVal.str)),
    ("metadata", JVal.obj metadata)]
  let (_, s2) := store md5 jsize maxCacheAge s1 .cache ("dataset-" ++ key) manifest
    metadata none (clock (chunks.length + 1))
  (datasetId, s2)

/-- `data.push(...chunk.data)` spreads an array payload; every chunk written by
`storeDataset` holds one (a non-array payload would make the source throw; it
never occurs in the modelled flows). -/
def spreadElems : JVal → List JVal
  | .arr l => l
  | _ => []

/-- The chunk-loading loop of `StorageManager.retrieveDataset`
(src/storageManager.ts:225-231): look every chunk id up through `retrieve`,
append the payload elements of the chunks that are still there, skip the ones
that are gone. (Chunk ids written by `storeDataset` are always strings.) -/
def collectChunks (now : Nat) : List JVal → Store → List JVal × Store
  | [], s => ([], s)
  | cid :: rest, s =>
    match cid with
    | .str c =>
      let (r, s1) := retrieve s .cache c now
      let (tail, s2) := collectChunks now rest s1
      ((match r with | some cr => spreadElems cr.data | none => []) ++ tail, s2)
    | _ => collectChunks now rest s

/-- `StorageManager.retrieveDataset` (src/storageManager.ts:221-234): load the
manifest by key `dataset-${key}` (null when missing or expired), then load and
concatenate the chunks listed in `manifest.data.chunks`. -/
def retrieveDataset (s : Store) (key : String) (now : Nat) :
    Option (List JVal) × Store :=
  let (m, s1) := retrieve s .cache ("dataset-" ++ key) now
  match m with
  | none => (none, s1)
  | some mrec =>
    let ids := match mrec.data with
      | .obj fields =>
        match List.lookup "chunks" fields with
        | some (.arr l) => l
        | _ => []
      | _ => []
    let (items, s2) := collectChunks now ids s1
    (some items, s2)

/-- Object-spread merge `{...a, ...b}` at lookup semantics: bindings of `b`
win over bindings of `a`. -/
def objMerge (a b : List (String × JVal)) : List (String × JVal) :=
  a.filter (fun kv => (List.lookup kv.1 b).isNone) ++ b

/-- The fields of an object payload (`{...session.data}` spreads the payload
object; sessions written by this module always hold objects). -/
def objFields : JVal → List (String × JVal)
  | .obj fs => fs
  | _ => []

/-- `StorageManager.createSession` (src/storageManager.ts:256-268): the payload
object is stored under the key `sessionId` (so the record file is named by the
generated id of that key, while `sessionId` itself reaches the file only
through the index). -/
def createSession (md5 : String → String) (jsize : JVal → Nat) (maxCacheAge : Nat)
    (s : Store) (sessionType : String) (initialData : JVal) (now : Nat) : String × Store :=
  let sessionId := generateId md5 ("session-" ++ sessionType) now
  let payload : JVal := JVal.obj [("sessionId", JVal.str sessionId),
    ("sessionType", JVal.str sessionType), ("state", JVal.str "active"),
    ("steps", JVal.arr []), ("data", initialData), ("createdAt", JVal.time now)]
  let (_, s1) := store md5 jsize maxCacheAge s .session sessionId payload
    [("sessionType", JVal.str sessionType)] none now
  (sessionId, s1)

/-- `StorageManager.updateSession` (src/storageManager.ts:273-285): resolve the
session through `retrieve`; throw (modelled as result `false`) when that gives
null; otherwise set the record's payload to
`{...session.data, ...updates, lastUpdated}` and write the result to the file
named by the given `sessionId` (the source writes `${sessionId}.json`, which is
not necessarily the file the record was read from). -/
def updateSession (s : Store) (sessionId : String)
    (updates : List (String × JVal)) (now : Nat) : Bool × Store :=
  let (res, s1) := retrieve s .session sessionId now
  match res with
  | none => (false, s1)
  | some session =>
    let newData := JVal.obj (objMerge (objMerge (objFields session.data) updates)
      [("lastUpdated", JVal.time now)])
    let updated := { session with data := newData }
    (true, setFiles s1 .session (upsert (s1.files .session) sessionId updated))

/-- Remove a set of files from one namespace (models deletion or expiry sweeps
of individual record files). -/
def removeFilesBy (s : Store) (ns : NS) (names : List String) : Store :=
  setFiles s ns ((s.files ns).filter (fun p => ! names.contains p.1))

/-- Proof-side mirror of the chunk loop of `storeDataset`: for each chunk, the
generated id, the store instant, and the slice `data.slice(i, i + chunkSize)`
it holds. Same recursion structure as `storeChunksAux`. -/
def chunkDescr (md5 : String → String) (clock : Nat → Nat) (key : String) (chunkSize : Nat) :
    Nat → Nat → List JVal → List (String × Nat × List JVal)
  | _, _, [] => []
  | cIdx, i, x :: xs =>
    if chunkSize = 0 then []
    else (generateId md5 (key ++ "-chunk-" ++ Nat.repr i) (clock cIdx), clock cIdx,
          (x :: xs).take chunkSize)
        :: chunkDescr md5 clock key chunkSize (cIdx + 1) (i + chunkSize)
            ((x :: xs).drop chunkSize)
termination_by _ _ l => l.length
decreasing_by simp [List.length_drop]; omega

/-- After the chunk loop ran, every chunk id that no later chunk id collides
with is a file holding that chunk's slice as an array payload, expiring a
default cache age after its store instant. -/
def chunkFilesInv (maxCacheAge : Nat) :
    List (String × Nat × List JVal) → List (String × StoredData) → Prop
  | [], _ => True
  | (id, t, slice) :: rest, files =>
    (id ∉ rest.map (fun d => d.1) →
      ∃ rec, List.lookup id files = some rec ∧ rec.data = JVal.arr slice ∧
        rec.expiresAt = some (t + maxCacheAge)) ∧
    chunkFilesInv maxCacheAge rest files

/-! ### Helper lemmas for the statistics toolkit -/

/-- For `p ≤ 100` the nearest-rank index (lower-clamped at 0) is within range. -/
lemma rank_lt_length {n : ℕ} (hn : n ≠ 0) {p : ℚ} (hp : p ≤ 100) :
    (max 0 (⌈p / 100 * (n : ℚ)⌉ - 1)).toNat < n := by
  have hceil : ⌈p / 100 * (n : ℚ)⌉ ≤ (n : ℤ) := by
    rw [Int.ceil_le]
    push_cast
    have hn0 : (0 : ℚ) ≤ (n : ℚ) := by positivity
    have : p / 100 ≤ 1 := by linarith
    nlinarith
  have h1 : (1 : ℤ) ≤ (n : ℤ) := by exact_mod_cast Nat.one_le_iff_ne_zero.mpr hn
  omega

/-- Nearest-rank percentile extraction is monotone in the percentile on a
sorted list, as long as the larger percentile stays within 100. -/
lemma getPercentile_mono {α : Type} [LinearOrder α] {l : List α}
    (hs : l.Sorted (· ≤ ·)) (hne : l ≠ []) {p q : ℚ} (hpq : p ≤ q) (hq : q ≤ 100) :
    ∃ a b, getPercentile l p = some a ∧ getPercentile l q = some b ∧ a ≤ b := by
  have hn : l.length ≠ 0 := by
    intro h
    exact hne (List.length_eq_zero.mp h)
  have hip := rank_lt_length hn (le_trans hpq hq)
  have hiq := rank_lt_length hn hq
  have hle : (max 0 (⌈p / 100 * (l.length : ℚ)⌉ - 1)).toNat
      ≤ (max 0 (⌈q / 100 * (l.length : ℚ)⌉ - 1)).toNat := by
    have : ⌈p / 100 * (l.length : ℚ)⌉ ≤ ⌈q / 100 * (l.length : ℚ)⌉ := by
      apply Int.ceil_le_ceil
      have hn0 : (0 : ℚ) ≤ (l.length : ℚ) := by positivity
      have : p / 100 ≤ q / 100 := by linarith
      nlinarith
    omega
  refine ⟨l.get ⟨_, hip⟩, l.get ⟨_, hiq⟩, List.get?_eq_get _, List.get?_eq_get _, ?_⟩
  exact hs.rel_get_of_le (by exact hle)

/-- Every Monte Carlo trial reports at most 101 sprints. -/
lemma mcTrial_le (vel : ℕ → ℚ) : ∀ (k s : ℕ) (work : ℚ), 101 - s = k → s ≤ 100 →
    mcTrial vel work s ≤ 101 := by
  intro k
  induction k with
  | zero => intro s work hk hs; omega
  | succ k ih =>
    intro s work hk hs
    rw [mcTrial]
    by_cases h1 : work ≤ 0
    · simp [h1]; omega
    · simp [h1]
      by_cases h2 : 100 < s + 1
      · simp [h2]; omega
      · simp [h2]
        exact ih (s + 1) _ (by omega) (by omega)

/-- The average of a constant list is its constant value. -/
lemma averageQ_replicate (n : ℕ) (hn : n ≠ 0) (c : ℚ) : averageQ (List.replicate n c) = c := by
  simp only [averageQ, List.length_replicate, List.sum_replicate, smul_eq_mul]
  rw [if_neg hn]
  field_simp

/-! ### C4 — nearest-rank percentile -/

/-- C4 (counterexample): `calculatePercentile([1,2], 150)` returns `undefined`
(embedded `none`) because the source clamps the rank only from below, whereas
the claim prescribes the element at the index clamped to `[0, n-1]`, namely `2`. -/
theorem c4_counterexample :
    calculatePercentile [1, 2] 150 = none ∧
    (sortAsc [1, 2]).get? (min (max 0 (⌈(150 : ℚ) / 100 * 2⌉ - 1)).toNat 1) = some 2 := by
  have h : ⌈(150 : ℚ) / 100 * 2⌉ = 3 := by
    rw [Int.ceil_eq_iff]
    norm_num
  constructor
  · simp +decide only [calculatePercentile, sortAsc, List.insertionSort, List.orderedInsert]
    norm_num [h]
  · norm_num [h, sortAsc, List.insertionSort, List.orderedInsert]

/-- C4 (amended): for every `p ≤ 100`, `calculatePercentile` returns 0 on empty
input and otherwise the element of the ascending-sorted copy at index
`ceil(p/100 * n) - 1` clamped to `[0, n-1]` (for such `p` only the lower clamp
can fire, so the source, which lacks the upper clamp, agrees with the claim). -/
theorem c4_amended (values : List ℚ) (p : ℚ) (hp : p ≤ 100) :
    (values.length = 0 → calculatePercentile values p = some 0) ∧
    (values.length ≠ 0 →
      ∃ x, calculatePercentile values p = some x ∧
        (sortAsc values).get?
          (min (max 0 (⌈p / 100 * (values.length : ℚ)⌉ - 1)).toNat (values.length - 1)) = some x) := by
  constructor
  · intro h0; simp [calculatePercentile, h0]
  · intro hne
    have hlen : (sortAsc values).length = values.length := by
      simp [sortAsc, List.length_insertionSort]
    have hidx := rank_lt_length hne hp
    have hmin : min (max 0 (⌈p / 100 * (values.length : ℚ)⌉ - 1)).toNat (values.length - 1)
        = (max 0 (⌈p / 100 * (values.length : ℚ)⌉ - 1)).toNat := by omega
    refine ⟨(sortAsc values).get ⟨(max 0 (⌈p / 100 * (values.length : ℚ)⌉ - 1)).toNat, by omega⟩,
      ?_, ?_⟩
    · simp only [calculatePercentile, hne, if_false, hlen]
      exact List.get?_eq_get _
    · simp only [hmin]
      exact List.get?_eq_get _

/-- C4 (witness): the amended theorem applied at `values = [3,1,2]`, `p = 50`. -/
theorem c4_witness :
    ∃ x, calculatePercentile [3, 1, 2] 50 = some x ∧
      (sortAsc [3, 1, 2]).get?
        (min (max 0 (⌈(50 : ℚ) / 100 * (([3, 1, 2] : List ℚ).length : ℚ)⌉ - 1)).toNat
          (([3, 1, 2] : List ℚ).length - 1)) = some x :=
  (c4_amended [3, 1, 2] 50 (by norm_num)).2 (by norm_num)

/-! ### C5 — Monte Carlo band ordering -/

/-- C5 (counterexample): with `confidenceLevel = 10` the optimistic band is the
90th percentile and the pessimistic band the 10th, so on a non-constant sprint
distribution `optimistic ≤ likely` fails. -/
theorem c5_counterexample :
    predictDeliveryBands (fun i _ => if i = 0 then 10 else 5) 10 10 2
      = (some 2, some 1, some 1) ∧ ¬ ((2 : ℕ) ≤ 1) := by
  have hrun : runMonteCarloSimulation (fun i _ => if i = 0 then 10 else 5) 10 2 = [1, 2] := by
    have h0 : mcTrial (fun _ => (10 : ℚ)) 10 0 = 1 := by
      rw [mcTrial]; norm_num; rw [mcTrial]; norm_num
    have h1 : mcTrial (fun _ => (5 : ℚ)) 10 0 = 2 := by
      rw [mcTrial]; norm_num
      rw [mcTrial]; norm_num
      rw [mcTrial]; norm_num
    simp [runMonteCarloSimulation, List.range_succ, List.insertionSort, List.orderedInsert, h0, h1]
  have c90 : ⌈(100 - 10 : ℚ) / 100 * 2⌉ = 2 := by
    rw [Int.ceil_eq_iff]
    norm_num
  have c50 : ⌈(50 : ℚ) / 100 * 2⌉ = 1 := by
    rw [Int.ceil_eq_iff]
    norm_num
  have c10 : ⌈(10 : ℚ) / 100 * 2⌉ = 1 := by
    rw [Int.ceil_eq_iff]
    norm_num
  have c95 : ⌈(9 : ℚ) / 5⌉ = 2 := by
    rw [Int.ceil_eq_iff]
    norm_num
  have c15 : ⌈(1 : ℚ) / 5⌉ = 1 := by
    rw [Int.ceil_eq_iff]
    norm_num
  refine ⟨?_, by omega⟩
  simp only [predictDeliveryBands, hrun, getPercentile, List.length_cons, List.length_nil]
  norm_num [c90, c50, c10, c95, c15]

/-- C5 (amended): for `50 ≤ confidenceLevel ≤ 100` and at least one trial, the
three bands exist and satisfy `optimistic ≤ likely ≤ pessimistic`. -/
theorem c5_amended (vel : ℕ → ℕ → ℚ) (remainingWork : ℚ) (confidenceLevel : ℚ)
    (iterations : ℕ) (hc1 : 50 ≤ confidenceLevel) (hc2 : confidenceLevel ≤ 100)
    (hit : iterations ≠ 0) :
    ∃ o m p, predictDeliveryBands vel remainingWork confidenceLevel iterations
        = (some o, some m, some p) ∧ o ≤ m ∧ m ≤ p := by
  set sims := runMonteCarloSimulation vel remainingWork iterations with hsims
  have hsorted : sims.Sorted (· ≤ ·) := List.sorted_insertionSort _ _
  have hne : sims ≠ [] := by
    have : sims.length = iterations := by
      simp [hsims, runMonteCarloSimulation, List.length_insertionSort]
    intro h
    rw [h] at this
    simp at this
    omega
  obtain ⟨o, m, ho, hm, hom⟩ := getPercentile_mono hsorted hne
    (show (100 - confidenceLevel : ℚ) ≤ 50 by linarith) (by norm_num)
  obtain ⟨m2, p, hm2, hp, hmp⟩ := getPercentile_mono hsorted hne
    (show (50 : ℚ) ≤ confidenceLevel by linarith) hc2
  have : m2 = m := by
    rw [hm] at hm2
    exact ((Option.some.injEq _ _).mp hm2).symm
  subst this
  exact ⟨o, m2, p, by simp [predictDeliveryBands, ← hsims, ho, hm, hp], hom, hmp⟩

/-- C5 (witness): the amended theorem applied at a constant velocity of 1,
remaining work 1, confidence level 85, one trial. -/
theorem c5_witness :
    ∃ o m p, predictDeliveryBands (fun _ _ => 1) 1 85 1 = (some o, some m, some p) ∧
      o ≤ m ∧ m ≤ p :=
  c5_amended (fun _ _ => 1) 1 85 1 (by norm_num) (by norm_num) (by norm_num)

/-! ### C6 — trend classification -/

/-- C6 (counterexample): the strictly increasing 6-point sequence
`[100..105]` classifies as "stable", not "increasing": its second-half average
(104) does not exceed 1.1 times its first-half average (111.1). -/
theorem c6_counterexample :
    List.Chain' (· < ·) [(100 : ℚ), 101, 102, 103, 104, 105] ∧
    calculateFailureTrend [100, 101, 102, 103, 104, 105] = "stable" ∧
    "stable" ≠ "increasing" := by
  refine ⟨by norm_num, ?_, by decide⟩
  simp only [calculateFailureTrend]
  norm_num [averageQ]

/-- C6 (amended): on 6-point sequences the classification follows the half-average
thresholds, not mere strict monotony: a strictly increasing sequence whose
second-half average exceeds 1.1 times the first-half average classifies as
"increasing"; a strictly decreasing one with nonnegative first-half average and
second-half average below 0.9 times the first classifies as "decreasing"; a
constant sequence of a nonnegative value classifies as "stable". -/
theorem c6_amended (v : List ℚ) (h6 : v.length = 6) :
    (List.Chain' (· < ·) v → averageQ (v.take 3) * (11 / 10) < averageQ (v.drop 3) →
        calculateFailureTrend v = "increasing") ∧
    (List.Chain' (· > ·) v → 0 ≤ averageQ (v.take 3) →
        averageQ (v.drop 3) < averageQ (v.take 3) * (9 / 10) →
        calculateFailureTrend v = "decreasing") ∧
    (∀ c : ℚ, 0 ≤ c → v = List.replicate 6 c → calculateFailureTrend v = "stable") := by
  have hhalf : v.length / 2 = 3 := by omega
  refine ⟨?_, ?_, ?_⟩
  · intro _ hthr
    simp only [calculateFailureTrend, h6, hhalf]
    norm_num
    intro hc
    exact absurd hthr (by push_neg; exact hc)
  · intro _ hnn hthr
    simp only [calculateFailureTrend, h6, hhalf]
    rw [if_neg (by omega)]
    have hno : ¬ (averageQ (v.take 3) * (11 / 10) < averageQ (v.drop 3)) := by nlinarith
    rw [if_neg (by simpa [gt_iff_lt] using hno), if_pos hthr]
  · intro c hc hv
    subst hv
    simp only [calculateFailureTrend, List.length_replicate, hhalf]
    rw [if_neg (by omega)]
    have ht : (List.replicate 6 c).take (6 / 2) = List.replicate 3 c := by
      rw [List.take_replicate]; norm_num
    have hd : (List.replicate 6 c).drop (6 / 2) = List.replicate 3 c := by
      rw [List.drop_replicate]
    rw [ht, hd, averageQ_replicate 3 (by omega) c]
    rw [if_neg (by nlinarith), if_neg (by nlinarith)]

/-- C6 (witness): the amended theorem applied to `[1,2,3,10,11,12]`, which
does cross the 1.1 threshold and classifies as "increasing". -/
theorem c6_witness : calculateFailureTrend [1, 2, 3, 10, 11, 12] = "increasing" :=
  (c6_amended [1, 2, 3, 10, 11, 12] (by norm_num)).1 (by norm_num)
    (by norm_num [averageQ])

/-! ### C7 — simulation termination and iteration cap -/

/-- C7: every Monte Carlo trial terminates (the embedding is a total function)
and its reported sprint count is bounded by the fixed cap (the loop breaks once
the counter passes 100, so no trial reports more than 101 sprints), for every
velocity oracle, including non-positive velocities; consequently every entry of
the simulation result respects the bound. -/
theorem c7_simulation_cap (vel : ℕ → ℕ → ℚ) (work : ℚ) (iterations : ℕ) :
    (∀ velStream : ℕ → ℚ, mcTrial velStream work 0 ≤ 101) ∧
    (runMonteCarloSimulation vel work iterations).all (fun n => decide (n ≤ 101)) = true := by
  constructor
  · intro vs
    exact mcTrial_le vs 101 0 work rfl (by omega)
  · rw [List.all_eq_true]
    intro x hx
    simp only [runMonteCarloSimulation, List.mem_insertionSort, List.mem_map] at hx
    obtain ⟨i, _, hi⟩ := hx
    subst hi
    simpa using mcTrial_le (vel i) 101 0 work rfl (by omega)

/-! ### C9 — caller-visible mutation in `MetricsAggregator.calculatePercentile` -/

/-- C9: `MetricsAggregator.calculatePercentile` sorts the caller's array in
place (`values.sort(...)` without a copy): after the call on `[2, 1]` the
caller's array reads `[1, 2]`, contradicting the claim that the input
sequence is never mutated. -/
theorem c9_mutation :
    calculatePercentileMA [2, 1] 50 = (some 1, [1, 2]) ∧ [2, 1] ≠ [1, 2] := by
  have h : ⌈(50 : ℚ) / 100 * 2⌉ = 1 := by
    rw [Int.ceil_eq_iff]
    norm_num
  constructor
  · simp +decide only [calculatePercentileMA, sortAsc, List.insertionSort, List.orderedInsert]
    norm_num [h]
  · simp

/-! ### String lemmas: decimal representation, dash splitting, key distinctness -/

lemma decDigits_lt {n : ℕ} (h : n < 10) : decDigits n = [Nat.digitChar n] := by
  rw [decDigits, if_pos h]

lemma decDigits_ge {n : ℕ} (h : ¬ n < 10) :
    decDigits n = decDigits (n / 10) ++ [Nat.digitChar (n % 10)] := by
  rw [decDigits, if_neg h]

lemma toDigitsCore_eq_decDigits :
    ∀ (f n : ℕ) (ds : List Char), n < f → Nat.toDigitsCore 10 f n ds = decDigits n ++ ds := by
  intro f
  induction f with
  | zero => intro n ds h; omega
  | succ f ih =>
    intro n ds h
    rw [Nat.toDigitsCore]
    by_cases h10 : n / 10 = 0
    · have hn : n < 10 := by omega
      rw [if_pos h10, decDigits_lt hn, Nat.mod_eq_of_lt hn]
      rfl
    · have hn : ¬ n < 10 := by omega
      rw [if_neg h10, ih (n / 10) _ (by omega), decDigits_ge hn, List.append_assoc]
      rfl

lemma repr_eq_decDigits (n : ℕ) : Nat.repr n = (decDigits n).asString := by
  rw [Nat.repr, Nat.toDigits, toDigitsCore_eq_decDigits (n + 1) n [] (by omega), List.append_nil]

lemma charVal_digitChar (a : ℕ) (h : a < 10) : charVal (Nat.digitChar a) = a := by
  interval_cases a <;> rfl

lemma digitChar_isDigit (a : ℕ) (h : a < 10) : (Nat.digitChar a).isDigit = true := by
  interval_cases a <;> rfl

lemma decDigits_isDigit : ∀ (n : ℕ), ∀ c ∈ decDigits n, c.isDigit = true := by
  intro n
  induction n using Nat.strong_induction_on with
  | _ n ih =>
    intro c hc
    by_cases h : n < 10
    · rw [decDigits_lt h] at hc
      simp at hc
      subst hc
      exact digitChar_isDigit n h
    · rw [decDigits_ge h] at hc
      rcases List.mem_append.mp hc with h1 | h2
      · exact ih (n / 10) (Nat.div_lt_self (by omega) (by omega)) c h1
      · simp at h2
        subst h2
        exact digitChar_isDigit (n % 10) (Nat.mod_lt n (by omega))

lemma decDigits_ne_nil (n : ℕ) : decDigits n ≠ [] := by
  by_cases h : n < 10
  · rw [decDigits_lt h]; simp
  · rw [decDigits_ge h]; simp

lemma decDigits_inj : ∀ (m : ℕ), ∀ (n : ℕ), decDigits m = decDigits n → m = n := by
  intro m
  induction m using Nat.strong_induction_on with
  | _ m ih =>
    intro n h
    by_cases hm : m < 10 <;> by_cases hn : n < 10
    · rw [decDigits_lt hm, decDigits_lt hn] at h
      simp at h
      have := charVal_digitChar m hm
      rw [h, charVal_digitChar n hn] at this
      omega
    · exfalso
      rw [decDigits_lt hm, decDigits_ge hn] at h
      have hlen := congrArg List.length h
      rw [List.length_singleton, List.length_append, List.length_singleton] at hlen
      have h0 : (decDigits (n / 10)).length = 0 := by omega
      exact decDigits_ne_nil _ (List.length_eq_zero.mp h0)
    · exfalso
      rw [decDigits_ge hm, decDigits_lt hn] at h
      have hlen := congrArg List.length h
      rw [List.length_singleton, List.length_append, List.length_singleton] at hlen
      have h0 : (decDigits (m / 10)).length = 0 := by omega
      exact decDigits_ne_nil _ (List.length_eq_zero.mp h0)
    · rw [decDigits_ge hm, decDigits_ge hn] at h
      rw [← List.concat_eq_append, ← List.concat_eq_append] at h
      obtain ⟨h1, h2⟩ := List.concat_inj.mp h
      have hdiv : m / 10 = n / 10 := ih (m / 10) (Nat.div_lt_self (by omega) (by omega)) (n / 10) h1
      have hmod : m % 10 = n % 10 := by
        have hm10 := charVal_digitChar (m % 10) (Nat.mod_lt m (by omega))
        rw [h2, charVal_digitChar (n % 10) (Nat.mod_lt n (by omega))] at hm10
        omega
      omega

lemma repr_inj {m n : ℕ} (h : Nat.repr m = Nat.repr n) : m = n := by
  rw [repr_eq_decDigits, repr_eq_decDigits, List.asString_inj] at h
  exact decDigits_inj m n h

lemma repr_isDigit (n : ℕ) : ∀ c ∈ (Nat.repr n).data, c.isDigit = true := by
  intro c hc
  rw [repr_eq_decDigits] at hc
  have : (decDigits n).asString.data = decDigits n := List.toList_asString _
  rw [this] at hc
  exact decDigits_isDigit n c hc

lemma firstDashSplit : ∀ (a c b d : List Char), '-' ∉ a → '-' ∉ c →
    a ++ '-' :: b = c ++ '-' :: d → a = c ∧ b = d := by
  intro a
  induction a with
  | nil =>
    intro c b d _ hc h
    cases c with
    | nil => simpa using h
    | cons e c2 =>
      simp only [List.nil_append] at h
      injection h with h1 h2
      subst h1
      exact absurd (List.mem_cons_self _ _) hc
  | cons e a2 ih =>
    intro c b d ha hc h
    cases c with
    | nil =>
      simp only [List.nil_append] at h
      injection h with h1 h2
      subst h1
      exact absurd (List.mem_cons_self _ _) ha
    | cons e2 c2 =>
      simp only [List.cons_append, List.cons.injEq] at h
      obtain ⟨he, hrest⟩ := h
      obtain ⟨h1, h2⟩ := ih c2 b d (fun hm => ha (List.mem_cons_of_mem e hm))
        (fun hm => hc (List.mem_cons_of_mem e2 hm)) hrest
      exact ⟨by rw [he, h1], h2⟩

lemma lastDashSplit (a c b d : List Char) (hb : '-' ∉ b) (hd : '-' ∉ d)
    (h : a ++ '-' :: b = c ++ '-' :: d) : a = c ∧ b = d := by
  have hrev : b.reverse ++ '-' :: a.reverse = d.reverse ++ '-' :: c.reverse := by
    have := congrArg List.reverse h
    simpa [List.reverse_append] using this
  obtain ⟨h1, h2⟩ := firstDashSplit b.reverse d.reverse a.reverse c.reverse
    (by simpa using hb) (by simpa using hd) hrev
  constructor
  · have := congrArg List.reverse h2
    simpa using this
  · have := congrArg List.reverse h1
    simpa using this

lemma repr_no_dash (t : ℕ) : '-' ∉ (Nat.repr t).data := by
  intro hmem
  have := repr_isDigit t _ hmem
  simp [Char.isDigit] at this

/-- Decomposing an equality between two `hash ++ "-" ++ Nat.repr time` strings:
the decimal suffix is dash-free, so the split at the last dash is unique. -/
lemma idString_decomp (a b : String) (t u : ℕ)
    (h : a ++ "-" ++ Nat.repr t = b ++ "-" ++ Nat.repr u) : a = b ∧ t = u := by
  have hdata : a.data ++ '-' :: (Nat.repr t).data = b.data ++ '-' :: (Nat.repr u).data := by
    have := congrArg String.data h
    simpa [String.data_append] using this
  obtain ⟨h1, h2⟩ := lastDashSplit _ _ _ _ (repr_no_dash t) (repr_no_dash u) hdata
  exact ⟨String.ext h1, repr_inj (String.ext h2)⟩

lemma count_c_repr (t : ℕ) : (Nat.repr t).data.count 'c' = 0 := by
  rw [List.count_eq_zero]
  intro hmem
  have := repr_isDigit t _ hmem
  simp [Char.isDigit] at this

/-- A dataset manifest key never coincides with a chunk key of the same dataset. -/
lemma datasetKey_ne_chunkKey (key : String) (i : ℕ) :
    "dataset-" ++ key ≠ key ++ "-chunk-" ++ Nat.repr i := by
  intro h
  have hd := congrArg String.data h
  simp only [String.data_append] at hd
  have hc := congrArg (List.count 'c') hd
  simp only [List.count_append, count_c_repr] at hc
  norm_num [show ("dataset-" : String).data = ['d', 'a', 't', 'a', 's', 'e', 't', '-'] from rfl,
    show ("-chunk-" : String).data = ['-', 'c', 'h', 'u', 'n', 'k', '-'] from rfl,
    List.count_cons] at hc
  simp +decide at hc

lemma chunkKey_inj (key : String) {i j : ℕ}
    (h : key ++ "-chunk-" ++ Nat.repr i = key ++ "-chunk-" ++ Nat.repr j) : i = j := by
  have hd := congrArg String.data h
  simp only [String.data_append, List.append_assoc] at hd
  have h2 := List.append_cancel_left (List.append_cancel_left hd)
  exact repr_inj (String.ext h2)

lemma hashW_id_inj (k1 k2 : String) (t1 t2 : ℕ)
    (h : hashW k1 ++ "-" ++ Nat.repr t1 = hashW k2 ++ "-" ++ Nat.repr t2) :
    k1 = k2 ∧ t1 = t2 := by
  obtain ⟨h1, h2⟩ := idString_decomp _ _ _ _ h
  refine ⟨?_, h2⟩
  have := congrArg String.data h1
  simp only [hashW, String.data_append] at this
  exact String.ext (by simpa using this)

lemma hashW_ne_datasetKey (k : String) (t : ℕ) :
    hashW k ++ "-" ++ Nat.repr t ≠ "dataset-" ++ "k" := by
  intro h
  have hd := congrArg String.data h
  simp only [hashW, String.data_append] at hd
  have : ('h' :: k.data) ++ '-' :: (Nat.repr t).data
      = "dataset".data ++ '-' :: "k".data := by simpa using hd
  obtain ⟨h1, _⟩ := lastDashSplit _ _ _ _ (repr_no_dash t) (by decide) this
  rw [show ("dataset" : String).data = ['d', 'a', 't', 'a', 's', 'e', 't'] from rfl] at h1
  injection h1 with hh _
  exact absurd hh (by decide)

lemma hashW_ne_chunkKey (k : String) (t i : ℕ) :
    hashW k ++ "-" ++ Nat.repr t ≠ "k" ++ "-chunk-" ++ Nat.repr i := by
  intro h
  have hd := congrArg String.data h
  simp only [hashW, String.data_append] at hd
  have : ('h' :: k.data) ++ '-' :: (Nat.repr t).data
      = ['k', '-', 'c', 'h', 'u', 'n', 'k'] ++ '-' :: (Nat.repr i).data := by simpa using hd
  obtain ⟨h1, _⟩ := lastDashSplit _ _ _ _ (repr_no_dash t) (repr_no_dash i) this
  injection h1 with hh _
  exact absurd hh (by decide)

section StorageLemmas

lemma lookup_upsert_self {β : Type} (l : List (String × β)) (k : String) (v : β) :
    List.lookup k (upsert l k v) = some v := by
  induction l with
  | nil => simp [upsert, List.lookup]
  | cons p rest ih =>
    obtain ⟨k0, v0⟩ := p
    by_cases h : k0 = k
    · simp [upsert, h, List.lookup]
    · have hbe : (k == k0) = false := by
        simp only [beq_eq_false_iff_ne, ne_eq]
        exact fun hh => h hh.symm
      simp [upsert, h, List.lookup, hbe, ih]

lemma lookup_upsert_ne {β : Type} (l : List (String × β)) (k k2 : String) (v : β)
    (h : k2 ≠ k) : List.lookup k2 (upsert l k v) = List.lookup k2 l := by
  have hbe : (k2 == k) = false := by simp only [beq_eq_false_iff_ne, ne_eq]; exact h
  induction l with
  | nil => simp [upsert, List.lookup, hbe]
  | cons p rest ih =>
    obtain ⟨k0, v0⟩ := p
    by_cases h0 : k0 = k
    · subst h0
      simp [upsert, List.lookup, hbe]
    · simp only [upsert, if_neg h0, List.lookup]
      cases hbe0 : (k2 == k0) <;> simp [ih]

@[simp] lemma setFiles_files_same (s : Store) (ns : NS) (l : List (String × StoredData)) :
    (setFiles s ns l).files ns = l := by simp [setFiles]

lemma setFiles_files_other (s : Store) (ns ns2 : NS) (l : List (String × StoredData))
    (h : ns2 ≠ ns) : (setFiles s ns l).files ns2 = s.files ns2 := by simp [setFiles, h]

@[simp] lemma setFiles_index (s : Store) (ns : NS) (l : List (String × StoredData)) :
    (setFiles s ns l).index = s.index := rfl

@[simp] lemma setIndex_files (s : Store) (ns : NS) (l : List (String × String)) :
    (setIndex s ns l).files = s.files := rfl

@[simp] lemma setIndex_index_same (s : Store) (ns : NS) (l : List (String × String)) :
    (setIndex s ns l).index ns = l := by simp [setIndex]

lemma setIndex_index_other (s : Store) (ns ns2 : NS) (l : List (String × String))
    (h : ns2 ≠ ns) : (setIndex s ns l).index ns2 = s.index ns2 := by simp [setIndex, h]

/-- `store` described on the level of file and index contents. -/
lemma store_eq (md5 : String → String) (jsize : JVal → Nat) (maxCacheAge : Nat)
    (s : Store) (type : NS) (key : String) (data : JVal)
    (metadata : List (String × JVal)) (ttl : Option Nat) (now : Nat) :
    store md5 jsize maxCacheAge s type key data metadata ttl now
      = (generateId md5 key now,
         setIndex (setFiles s type (upsert (s.files type) (generateId md5 key now)
            { id := generateId md5 key now, type := type, timestamp := now,
              expiresAt := some (expiryOf maxCacheAge ttl now),
              metadata := ("key", JVal.str key) :: ("size", JVal.num (jsize data)) :: metadata,
              data := data }))
           type (upsert (s.index type) key (generateId md5 key now))) := by
  simp [store]

end StorageLemmas

/-! ### C3 — ids of two writes under one key -/

/-- C3 (counterexample): two `store` calls under the same key within the same
clock instant generate the same id; the second write overwrites the first
record file, so the ids are not distinct and the first record is gone. -/
theorem c3_counterexample :
    ((store hashW (fun _ => 0) 5 emptyStore .cache "k" (JVal.num 1) [] none 7).1
      = (store hashW (fun _ => 0) 5
          (store hashW (fun _ => 0) 5 emptyStore .cache "k" (JVal.num 1) [] none 7).2
          .cache "k" (JVal.num 2) [] none 7).1) ∧
    (List.lookup (store hashW (fun _ => 0) 5 emptyStore .cache "k" (JVal.num 1) [] none 7).1
        (((store hashW (fun _ => 0) 5
            (store hashW (fun _ => 0) 5 emptyStore .cache "k" (JVal.num 1) [] none 7).2
            .cache "k" (JVal.num 2) [] none 7).2).files .cache)
      = some { id := generateId hashW "k" 7, type := .cache, timestamp := 7,
               expiresAt := some 12,
               metadata := [("key", JVal.str "k"), ("size", JVal.num 0)],
               data := JVal.num 2 }) := by
  constructor
  · rfl
  · rfl

/-- C3 (amended): when the two writes observe distinct clock instants, the two
ids are distinct, the key index points at the id of the later write, and both
records remain retrievable by their ids while unexpired. (Within one clock
instant `Date.now()` repeats and the id collides — see the counterexample.)
The hypothesis `hinj` is the id-uniqueness invariant of the specification
(collision-freedom of the truncated hash). -/
theorem c3_amended (md5 : String → String) (jsize : JVal → Nat) (maxCacheAge : Nat)
    (hinj : ∀ k1 t1 k2 t2, generateId md5 k1 t1 = generateId md5 k2 t2 → k1 = k2 ∧ t1 = t2)
    (s : Store) (type : NS) (key : String) (d1 d2 : JVal)
    (m1 m2 : List (String × JVal)) (ttl1 ttl2 : Option Nat) (t1 t2 : ℕ) (hne : t1 ≠ t2) :
    (store md5 jsize maxCacheAge s type key d1 m1 ttl1 t1).1
        ≠ (store md5 jsize maxCacheAge
            (store md5 jsize maxCacheAge s type key d1 m1 ttl1 t1).2 type key d2 m2 ttl2 t2).1 ∧
    List.lookup key
        (((store md5 jsize maxCacheAge
            (store md5 jsize maxCacheAge s type key d1 m1 ttl1 t1).2 type key d2 m2 ttl2 t2).2).index type)
      = some (store md5 jsize maxCacheAge
            (store md5 jsize maxCacheAge s type key d1 m1 ttl1 t1).2 type key d2 m2 ttl2 t2).1 ∧
    (∀ now, now ≤ expiryOf maxCacheAge ttl1 t1 →
      (retrieve (store md5 jsize maxCacheAge
            (store md5 jsize maxCacheAge s type key d1 m1 ttl1 t1).2 type key d2 m2 ttl2 t2).2
          type (store md5 jsize maxCacheAge s type key d1 m1 ttl1 t1).1 now).1
        = some { id := generateId md5 key t1, type := type, timestamp := t1,
                 expiresAt := some (expiryOf maxCacheAge ttl1 t1),
                 metadata := ("key", JVal.str key) :: ("size", JVal.num (jsize d1)) :: m1,
                 data := d1 }) ∧
    (∀ now, now ≤ expiryOf maxCacheAge ttl2 t2 →
      (retrieve (store md5 jsize maxCacheAge
            (store md5 jsize maxCacheAge s type key d1 m1 ttl1 t1).2 type key d2 m2 ttl2 t2).2
          type (store md5 jsize maxCacheAge
            (store md5 jsize maxCacheAge s type key d1 m1 ttl1 t1).2 type key d2 m2 ttl2 t2).1 now).1
        = some { id := generateId md5 key t2, type := type, timestamp := t2,
                 expiresAt := some (expiryOf maxCacheAge ttl2 t2),
                 metadata := ("key", JVal.str key) :: ("size", JVal.num (jsize d2)) :: m2,
                 data := d2 }) := by
  have hid : generateId md5 key t1 ≠ generateId md5 key t2 := by
    intro h
    exact hne (hinj key t1 key t2 h).2
  refine ⟨?_, ?_, ?_, ?_⟩
  · simpa [store] using hid
  · simp [store, lookup_upsert_self]
  · intro now hnow
    rw [retrieve]
    simp only [store, setIndex_files, setFiles_files_same]
    rw [lookup_upsert_ne _ _ _ _ hid, lookup_upsert_self]
    simp [checkExpired, isLive, Nat.not_lt.mpr hnow]
  · intro now hnow
    rw [retrieve]
    simp only [store, setIndex_files, setFiles_files_same]
    rw [lookup_upsert_self]
    simp [checkExpired, isLive, Nat.not_lt.mpr hnow]

/-- C3 (witness): the amended theorem at two writes of clocks 0 and 1 under
key "k", read back at clock 3. -/
theorem c3_witness :
    (store hashW (fun _ => 0) 5 emptyStore .cache "k" (JVal.num 1) [] none 0).1
        ≠ (store hashW (fun _ => 0) 5
            (store hashW (fun _ => 0) 5 emptyStore .cache "k" (JVal.num 1) [] none 0).2
            .cache "k" (JVal.num 2) [] none 1).1 ∧
    (retrieve (store hashW (fun _ => 0) 5
            (store hashW (fun _ => 0) 5 emptyStore .cache "k" (JVal.num 1) [] none 0).2
            .cache "k" (JVal.num 2) [] none 1).2
        .cache (store hashW (fun _ => 0) 5 emptyStore .cache "k" (JVal.num 1) [] none 0).1 3).1
      = some { id := generateId hashW "k" 0, type := .cache, timestamp := 0,
               expiresAt := some (expiryOf 5 none 0),
               metadata := [("key", JVal.str "k"), ("size", JVal.num 0)],
               data := JVal.num 1 } := by
  have h := c3_amended hashW (fun _ => 0) 5
    (fun k1 t1 k2 t2 hh => hashW_id_inj k1 k2 t1 t2 hh)
    emptyStore .cache "k" (JVal.num 1) (JVal.num 2) [] [] none none 0 1 (by omega)
  exact ⟨h.1, h.2.2.1 3 (by norm_num [expiryOf])⟩

/-! ### C1 — expiry on reads -/

lemma scanDir_mem_live (filter : Option (List (String × JVal))) (now : Nat) :
    ∀ (l : List (String × StoredData)) (r : StoredData),
      r ∈ (scanDir filter now l).1 → isLive r now = true := by
  intro l
  induction l with
  | nil => intro r hr; simp [scanDir] at hr
  | cons p rest ih =>
    intro r hr
    obtain ⟨name, r0⟩ := p
    simp only [scanDir] at hr
    by_cases hl : isLive r0 now
    · by_cases hm : matchesFilter filter r0
      · rw [if_pos hl, if_pos hm] at hr
        rcases List.mem_cons.mp hr with h | h
        · rw [h]; exact hl
        · exact ih r h
      · rw [if_pos hl, if_neg hm] at hr
        exact ih r hr
    · rw [if_neg hl] at hr
      exact ih r hr

lemma scanDir_keep_live (filter : Option (List (String × JVal))) (now : Nat) :
    ∀ (l : List (String × StoredData)) (p : String × StoredData),
      p ∈ (scanDir filter now l).2 → isLive p.2 now = true := by
  intro l
  induction l with
  | nil => intro p hp; simp [scanDir] at hp
  | cons q rest ih =>
    intro p hp
    obtain ⟨name, r0⟩ := q
    simp only [scanDir] at hp
    by_cases hl : isLive r0 now
    · by_cases hm : matchesFilter filter r0
      · rw [if_pos hl, if_pos hm] at hp
        rcases List.mem_cons.mp hp with h | h
        · rw [h]; exact hl
        · exact ih p h
      · rw [if_pos hl, if_neg hm] at hp
        rcases List.mem_cons.mp hp with h | h
        · rw [h]; exact hl
        · exact ih p h
    · rw [if_neg hl] at hp
      exact ih p hp

/-- C1 (counterexample): a record stored with `ttl = 0` at clock 0 is still
returned at clock 1, although its ttl of 0 has elapsed: `ttl` is falsy in
JavaScript at 0, so the default cache age (5 here) applies instead. -/
theorem c1_counterexample :
    (0 : ℕ) + 0 < 1 ∧
    (retrieve (store hashW (fun _ => 0) 5 emptyStore .cache "k" JVal.jnull [] (some 0) 0).2
        .cache (store hashW (fun _ => 0) 5 emptyStore .cache "k" JVal.jnull [] (some 0) 0).1 1).1
      = some { id := generateId hashW "k" 0, type := .cache, timestamp := 0,
               expiresAt := some 5,
               metadata := [("key", JVal.str "k"), ("size", JVal.num 0)],
               data := JVal.jnull } :=
  ⟨by omega, rfl⟩

/-- C1 (amended): no read returns an expired record — `retrieve` deletes a
resolved expired record (via either resolution path) and returns not-found,
and `list` deletes expired records and omits them for every filter; and a
record stored with ttl `T > 0` is retrievable by its id strictly before `T`
elapses and is not retrievable strictly after `T` elapses. (For `ttl = 0` the
source falls back to the default age — see the counterexample.) -/
theorem c1_amended (md5 : String → String) (jsize : JVal → Nat) (maxCacheAge : Nat)
    (s : Store) (type : NS) (q : String) (filter : Option (List (String × JVal)))
    (now : Nat) (key : String) (data : JVal) (metadata : List (String × JVal))
    (T t1 now2 : ℕ) (hT : 0 < T) :
    (∀ r, (retrieve s type q now).1 = some r → isLive r now = true) ∧
    (∀ r, List.lookup q (s.files type) = some r → isLive r now = false →
      retrieve s type q now = (none, setFiles s type (removeEntry (s.files type) q))) ∧
    (∀ id r, List.lookup q (s.files type) = none →
      List.lookup q (s.index type) = some id →
      List.lookup id (s.files type) = some r → isLive r now = false →
      retrieve s type q now = (none, setFiles s type (removeEntry (s.files type) id))) ∧
    (∀ r, r ∈ (list s type filter now).1 → isLive r now = true) ∧
    (∀ p, p ∈ s.files type → isLive p.2 now = false →
      p ∉ ((list s type filter now).2.files type)) ∧
    ((now2 < t1 + T →
      (retrieve (store md5 jsize maxCacheAge s type key data metadata (some T) t1).2 type
          (store md5 jsize maxCacheAge s type key data metadata (some T) t1).1 now2).1
        = some { id := generateId md5 key t1, type := type, timestamp := t1,
                 expiresAt := some (t1 + T),
                 metadata := ("key", JVal.str key) :: ("size", JVal.num (jsize data)) :: metadata,
                 data := data }) ∧
     (t1 + T < now2 →
      (retrieve (store md5 jsize maxCacheAge s type key data metadata (some T) t1).2 type
          (store md5 jsize maxCacheAge s type key data metadata (some T) t1).1 now2).1
        = none)) := by
  have hexp : expiryOf maxCacheAge (some T) t1 = t1 + T := by
    simp [expiryOf, Nat.pos_iff_ne_zero.mp hT]
  refine ⟨?_, ?_, ?_, ?_, ?_, ?_, ?_⟩
  · intro r hr
    rw [retrieve] at hr
    cases h1 : List.lookup q (s.files type) with
    | some r0 =>
      simp only [h1] at hr
      by_cases hl : isLive r0 now
      · simp [checkExpired, hl] at hr
        rw [← hr]; exact hl
      · simp [checkExpired, hl] at hr
    | none =>
      simp only [h1] at hr
      cases h2 : List.lookup q (s.index type) with
      | none => simp [h2] at hr
      | some id =>
        simp only [h2] at hr
        cases h3 : List.lookup id (s.files type) with
        | none => simp [h3] at hr
        | some r0 =>
          simp only [h3] at hr
          by_cases hl : isLive r0 now
          · simp [checkExpired, hl] at hr
            rw [← hr]; exact hl
          · simp [checkExpired, hl] at hr
  · intro r h1 hl
    rw [retrieve, h1]
    simp [checkExpired, hl]
  · intro id r h1 h2 h3 hl
    rw [retrieve]
    simp only [h1, h2, h3]
    simp [checkExpired, hl]
  · intro r hr
    simp only [list, List.mem_insertionSort] at hr
    exact scanDir_mem_live filter now _ r hr
  · intro p _ hl hmem
    simp only [list, setFiles_files_same] at hmem
    have := scanDir_keep_live filter now (s.files type) p hmem
    rw [this] at hl
    exact Bool.noConfusion hl
  · intro hbefore
    rw [retrieve]
    simp only [store, setIndex_files, setFiles_files_same]
    rw [lookup_upsert_self]
    simp [checkExpired, isLive, hexp, Nat.not_lt.mpr (by omega : now2 ≤ t1 + T)]
  · intro hafter
    rw [retrieve]
    simp only [store, setIndex_files, setFiles_files_same]
    rw [lookup_upsert_self]
    simp [checkExpired, isLive, hexp, hafter]

/-- C1 (witness): the amended theorem at a store with ttl 3 at clock 0 in the
empty store: the record is returned at clock 2 and gone at clock 4. -/
theorem c1_witness :
    (retrieve (store hashW (fun _ => 0) 5 emptyStore .cache "k" JVal.jnull [] (some 3) 0).2
        .cache (store hashW (fun _ => 0) 5 emptyStore .cache "k" JVal.jnull [] (some 3) 0).1 2).1
      = some { id := generateId hashW "k" 0, type := .cache, timestamp := 0,
               expiresAt := some 3,
               metadata := [("key", JVal.str "k"), ("size", JVal.num 0)],
               data := JVal.jnull } ∧
    (retrieve (store hashW (fun _ => 0) 5 emptyStore .cache "k" JVal.jnull [] (some 3) 0).2
        .cache (store hashW (fun _ => 0) 5 emptyStore .cache "k" JVal.jnull [] (some 3) 0).1 4).1
      = none := by
  constructor
  · exact ((c1_amended hashW (fun _ => 0) 5 emptyStore .cache "k" none 0 "k" JVal.jnull []
      3 0 2 (by omega)).2.2.2.2.2.1) (by omega)
  · exact ((c1_amended hashW (fun _ => 0) 5 emptyStore .cache "k" none 0 "k" JVal.jnull []
      3 0 4 (by omega)).2.2.2.2.2.2) (by omega)

/-! ### C8 — updateSession -/

lemma lookup_objMerge (a b : List (String × JVal)) (k : String) :
    List.lookup k (objMerge a b)
      = match List.lookup k b with
        | some v => some v
        | none => List.lookup k a := by
  induction a with
  | nil =>
    simp only [objMerge, List.filter_nil, List.nil_append]
    cases List.lookup k b <;> simp [List.lookup]
  | cons p a2 ih =>
    obtain ⟨k0, v0⟩ := p
    by_cases hb : (List.lookup k0 b).isNone
    · have : objMerge ((k0, v0) :: a2) b = (k0, v0) :: objMerge a2 b := by
        simp [objMerge, List.filter_cons, hb]
      rw [this]
      by_cases hk : k = k0
      · subst hk
        rw [Option.isNone_iff_eq_none] at hb
        simp [List.lookup, hb]
      · have hbe : (k == k0) = false := by simp [beq_eq_false_iff_ne, hk]
        simp only [List.lookup, hbe]
        exact ih
    · have : objMerge ((k0, v0) :: a2) b = objMerge a2 b := by
        simp only [objMerge, List.filter_cons]
        rw [if_neg (by simpa using hb)]
      rw [this]
      by_cases hk : k = k0
      · subst hk
        rw [ih]
        cases hlb : List.lookup k b with
        | some w => simp
        | none => rw [hlb, Option.isNone_iff_eq_none] at hb; simp at hb
      · have hbe : (k == k0) = false := by simp [beq_eq_false_iff_ne, hk]
        rw [ih]
        simp only [List.lookup, hbe]

lemma mem_removeEntry {β : Type} (l : List (String × β)) (k : String) (p : String × β) :
    p ∈ removeEntry l k ↔ p ∈ l ∧ p.1 ≠ k := by
  simp [removeEntry, List.mem_filter]

lemma lookup_of_mem_nodup {β : Type} (l : List (String × β)) (p : String × β)
    (hnd : (l.map Prod.fst).Nodup) (hmem : p ∈ l) : List.lookup p.1 l = some p.2 := by
  induction l with
  | nil => simp at hmem
  | cons q rest ih =>
    obtain ⟨k0, v0⟩ := q
    simp only [List.map_cons, List.nodup_cons] at hnd
    rcases List.mem_cons.mp hmem with h | h
    · subst h
      simp [List.lookup]
    · have hne : p.1 ≠ k0 := by
        intro hh
        exact hnd.1 (hh ▸ List.mem_map_of_mem Prod.fst h)
      have hbe : (p.1 == k0) = false := by simp [beq_eq_false_iff_ne, hne]
      simp only [List.lookup, hbe]
      exact ih hnd.2 h

/-- `retrieve` leaves the state alone or deletes exactly one resolved expired
file. -/
lemma retrieve_snd_cases (s : Store) (type : NS) (q : String) (now : Nat) :
    (retrieve s type q now).2 = s ∨
    ∃ name r, List.lookup name (s.files type) = some r ∧ isLive r now = false ∧
      (retrieve s type q now).2 = setFiles s type (removeEntry (s.files type) name) := by
  rw [retrieve]
  cases h1 : List.lookup q (s.files type) with
  | some r =>
    simp only [h1]
    by_cases hl : isLive r now
    · left; simp [checkExpired, hl]
    · right
      exact ⟨q, r, h1, Bool.eq_false_iff.mpr hl, by simp [checkExpired, hl]⟩
  | none =>
    simp only [h1]
    cases h2 : List.lookup q (s.index type) with
    | none => simp only [h2]; left; trivial
    | some id =>
      simp only [h2]
      cases h3 : List.lookup id (s.files type) with
      | none => simp only [h3]; left; trivial
      | some r =>
        simp only [h3]
        by_cases hl : isLive r now
        · left; simp [checkExpired, hl]
        · right
          exact ⟨id, r, h3, Bool.eq_false_iff.mpr hl, by simp [checkExpired, hl]⟩

/-- The first component of `retrieve` is exactly the live resolution. -/
lemma retrieve_fst_eq_liveResolution (s : Store) (type : NS) (q : String) (now : Nat) :
    (retrieve s type q now).1 = liveResolution s type q now := by
  rw [retrieve, liveResolution]
  cases h1 : List.lookup q (s.files type) with
  | some r =>
    simp only [h1]
    by_cases hl : isLive r now <;> simp [checkExpired, hl]
  | none =>
    simp only [h1]
    cases h2 : List.lookup q (s.index type) with
    | none => simp only [h2]
    | some id =>
      simp only [h2]
      cases h3 : List.lookup id (s.files type) with
      | none => simp only [h3]
      | some r =>
        simp only [h3]
        by_cases hl : isLive r now <;> simp [checkExpired, hl]

/-- A live resolution means `retrieve` returns the record and leaves the state
untouched. -/
lemma retrieve_of_live (s : Store) (type : NS) (q : String) (now : Nat) (r : StoredData)
    (h : liveResolution s type q now = some r) :
    retrieve s type q now = (some r, s) := by
  rw [retrieve]
  rw [liveResolution] at h
  cases h1 : List.lookup q (s.files type) with
  | some r0 =>
    simp only [h1] at h ⊢
    by_cases hl : isLive r0 now
    · rw [if_pos hl] at h
      cases h
      simp [checkExpired, hl]
    · rw [if_neg hl] at h
      cases h
  | none =>
    simp only [h1] at h ⊢
    cases h2 : List.lookup q (s.index type) with
    | none => simp only [h2] at h; cases h
    | some id =>
      simp only [h2] at h ⊢
      cases h3 : List.lookup id (s.files type) with
      | none => simp only [h3] at h; cases h
      | some r0 =>
        simp only [h3] at h ⊢
        by_cases hl : isLive r0 now
        · rw [if_pos hl] at h
          cases h
          simp [checkExpired, hl]
        · rw [if_neg hl] at h
          cases h

/-- C8 (counterexample): when the resolution finds an expired session record,
`updateSession` raises the not-found error, but the state is not unchanged: the
expired record file has been deleted by the lazy-expiry read. -/
theorem c8_counterexample :
    (updateSession ⟨(fun ns => match ns with
        | NS.session => [("sid", StoredData.mk "sid" NS.session 0 (some 0) [] JVal.jnull)]
        | _ => []), fun _ => []⟩ "sid" [] 1).1 = false ∧
    ((updateSession ⟨(fun ns => match ns with
        | NS.session => [("sid", StoredData.mk "sid" NS.session 0 (some 0) [] JVal.jnull)]
        | _ => []), fun _ => []⟩ "sid" [] 1).2).files NS.session = [] ∧
    ((⟨(fun ns => match ns with
        | NS.session => [("sid", StoredData.mk "sid" NS.session 0 (some 0) [] JVal.jnull)]
        | _ => []), fun _ => []⟩ : Store)).files NS.session ≠ [] := by
  refine ⟨rfl, rfl, by simp⟩

/-- C8 (amended): `updateSession` fails if and only if no unexpired session
record resolves for `sessionId`; on failure no record is created or modified
and the index is untouched, but the one resolved expired record (if any) is
lazily deleted, so the state is not always literally unchanged; on success the
session record's payload becomes the shallow merge of the old payload fields
with `partialData`, stamped with the update instant under `lastUpdated`, and
is written to the file named `sessionId`. -/
theorem c8_amended (s : Store) (sessionId : String) (updates : List (String × JVal))
    (now : Nat) (hnd : ((s.files NS.session).map Prod.fst).Nodup) :
    ((updateSession s sessionId updates now).1 = false ↔
      liveResolution s NS.session sessionId now = none) ∧
    ((updateSession s sessionId updates now).1 = false →
      (∀ ns p, p ∈ ((updateSession s sessionId updates now).2).files ns → p ∈ s.files ns) ∧
      ((updateSession s sessionId updates now).2).index = s.index ∧
      (∀ p, p ∈ s.files NS.session →
        p ∉ ((updateSession s sessionId updates now).2).files NS.session →
        isLive p.2 now = false)) ∧
    (∀ sess, liveResolution s NS.session sessionId now = some sess →
      (updateSession s sessionId updates now).1 = true ∧
      (updateSession s sessionId updates now).2
        = setFiles s NS.session (upsert (s.files NS.session) sessionId
            { sess with data := JVal.obj (objMerge (objMerge (objFields sess.data) updates)
                [("lastUpdated", JVal.time now)]) }) ∧
      List.lookup "lastUpdated" (objMerge (objMerge (objFields sess.data) updates)
          [("lastUpdated", JVal.time now)]) = some (JVal.time now) ∧
      (∀ k v, k ≠ "lastUpdated" → List.lookup k updates = some v →
        List.lookup k (objMerge (objMerge (objFields sess.data) updates)
          [("lastUpdated", JVal.time now)]) = some v) ∧
      (∀ k, k ≠ "lastUpdated" → List.lookup k updates = none →
        List.lookup k (objMerge (objMerge (objFields sess.data) updates)
          [("lastUpdated", JVal.time now)]) = List.lookup k (objFields sess.data))) := by
  have hfst := retrieve_fst_eq_liveResolution s NS.session sessionId now
  refine ⟨?_, ?_, ?_⟩
  · rw [updateSession]
    cases hres : (retrieve s NS.session sessionId now).1 with
    | none =>
      rw [hres] at hfst
      simp only [hres]
      simp [← hfst]
    | some sess =>
      rw [hres] at hfst
      simp only [hres]
      simp [← hfst]
  · intro herr
    rw [updateSession] at herr
    cases hres : (retrieve s NS.session sessionId now).1 with
    | some sess =>
      simp only [hres] at herr
      simp at herr
    | none =>
      have hsnd : (updateSession s sessionId updates now).2
          = (retrieve s NS.session sessionId now).2 := by
        rw [updateSession]
        simp only [hres]
      rcases retrieve_snd_cases s NS.session sessionId now with hc | ⟨name, r, hlk, hdead, hc⟩
      · rw [hsnd, hc]
        exact ⟨fun ns p hp => hp, rfl, fun p hp hnp => absurd hp hnp⟩
      · rw [hsnd, hc]
        refine ⟨?_, rfl, ?_⟩
        · intro ns p hp
          by_cases hns : ns = NS.session
          · subst hns
            rw [setFiles_files_same] at hp
            exact ((mem_removeEntry _ _ _).mp hp).1
          · rw [setFiles_files_other _ _ _ _ hns] at hp
            exact hp
        · intro p hp hnp
          rw [setFiles_files_same] at hnp
          have hname : p.1 = name := by
            by_contra hne
            exact hnp ((mem_removeEntry _ _ _).mpr ⟨hp, hne⟩)
          have : List.lookup p.1 (s.files NS.session) = some p.2 :=
            lookup_of_mem_nodup _ _ hnd hp
          rw [hname, hlk] at this
          cases this
          exact hdead
  · intro sess hlive
    have hret := retrieve_of_live s NS.session sessionId now sess hlive
    have e1 : (updateSession s sessionId updates now).1 = true := by
      rw [updateSession]
      simp only [hret]
    have e2 : (updateSession s sessionId updates now).2
        = setFiles s NS.session (upsert (s.files NS.session) sessionId
            { sess with data := JVal.obj (objMerge (objMerge (objFields sess.data) updates)
                [("lastUpdated", JVal.time now)]) }) := by
      rw [updateSession]
      simp only [hret]
    refine ⟨e1, e2, ?_, ?_, ?_⟩
    · rw [lookup_objMerge]
      simp [List.lookup]
    · intro k v hk hup
      rw [lookup_objMerge]
      have hsing : List.lookup k [("lastUpdated", JVal.time now)] = none := by
        have hbe : (k == "lastUpdated") = false := by simp [beq_eq_false_iff_ne, hk]
        simp [List.lookup, hbe]
      rw [hsing, lookup_objMerge, hup]
    · intro k hk hup
      rw [lookup_objMerge]
      have hsing : List.lookup k [("lastUpdated", JVal.time now)] = none := by
        have hbe : (k == "lastUpdated") = false := by simp [beq_eq_false_iff_ne, hk]
        simp [List.lookup, hbe]
      rw [hsing, lookup_objMerge, hup]

/-- C8 (witness): the amended theorem on a store holding one live session with
payload `{a: 1}`, updated with `{b: 2}` at clock 1. -/
theorem c8_witness :
    (updateSession ⟨(fun ns => match ns with
        | NS.session => [("sid",
            StoredData.mk "sid" NS.session 0 (some 10) [] (JVal.obj [("a", JVal.num 1)]))]
        | _ => []), fun _ => []⟩ "sid" [("b", JVal.num 2)] 1).1 = true ∧
    List.lookup "b" (objMerge (objMerge (objFields (JVal.obj [("a", JVal.num 1)]))
        [("b", JVal.num 2)]) [("lastUpdated", JVal.time 1)]) = some (JVal.num 2) ∧
    List.lookup "a" (objMerge (objMerge (objFields (JVal.obj [("a", JVal.num 1)]))
        [("b", JVal.num 2)]) [("lastUpdated", JVal.time 1)])
      = List.lookup "a" (objFields (JVal.obj [("a", JVal.num 1)])) := by
  have h := c8_amended ⟨(fun ns => match ns with
      | NS.session => [("sid",
          StoredData.mk "sid" NS.session 0 (some 10) [] (JVal.obj [("a", JVal.num 1)]))]
      | _ => []), fun _ => []⟩ "sid" [("b", JVal.num 2)] 1 (by simp)
  obtain ⟨e1, e2, e3, e4, e5⟩ := h.2.2
    (StoredData.mk "sid" NS.session 0 (some 10) [] (JVal.obj [("a", JVal.num 1)])) rfl
  exact ⟨e1, e4 "b" (JVal.num 2) (by decide) rfl, e5 "a" (by decide) rfl⟩

/-! ### C2 — dataset chunk round trip -/

lemma chunkDescr_nil (md5 : String → String) (clock : Nat → Nat) (key : String)
    (chunkSize : Nat) (cIdx i : Nat) :
    chunkDescr md5 clock key chunkSize cIdx i [] = [] := by
  rw [chunkDescr]

lemma chunkDescr_cons (md5 : String → String) (clock : Nat → Nat) (key : String)
    {chunkSize : Nat} (hcs : chunkSize ≠ 0) (cIdx i : Nat) (x : JVal) (xs : List JVal) :
    chunkDescr md5 clock key chunkSize cIdx i (x :: xs)
      = (generateId md5 (key ++ "-chunk-" ++ Nat.repr i) (clock cIdx), clock cIdx,
          (x :: xs).take chunkSize)
        :: chunkDescr md5 clock key chunkSize (cIdx + 1) (i + chunkSize)
            ((x :: xs).drop chunkSize) := by
  rw [chunkDescr, if_neg hcs]

/-- The slices recorded by `chunkDescr` concatenate back to the original
sequence. -/
lemma chunkDescr_join (md5 : String → String) (clock : Nat → Nat) (key : String)
    {chunkSize : Nat} (hcs : chunkSize ≠ 0) :
    ∀ (items : List JVal) (cIdx i : Nat),
      ((chunkDescr md5 clock key chunkSize cIdx i items).map (fun d => d.2.2)).flatten = items := by
  suffices h : ∀ (n : Nat) (items : List JVal), items.length = n → ∀ (cIdx i : Nat),
      ((chunkDescr md5 clock key chunkSize cIdx i items).map (fun d => d.2.2)).flatten = items by
    intro items cIdx i
    exact h items.length items rfl cIdx i
  intro n
  induction n using Nat.strong_induction_on with
  | _ n ih =>
    intro items hl cIdx i
    cases items with
    | nil => simp [chunkDescr_nil]
    | cons x xs =>
      rw [chunkDescr_cons md5 clock key hcs]
      simp only [List.map_cons, List.flatten_cons]
      have hlen : ((x :: xs).drop chunkSize).length < n := by
        rw [← hl]
        simp only [List.length_drop, List.length_cons]
        omega
      rw [ih _ hlen _ rfl (cIdx + 1) (i + chunkSize)]
      exact List.take_append_drop chunkSize (x :: xs)

/-- Every chunk descriptor entry is the id of a chunk key with offset at least
`i`, stored at some clock instant. -/
lemma chunkDescr_mem_shape (md5 : String → String) (clock : Nat → Nat) (key : String)
    {chunkSize : Nat} (hcs : chunkSize ≠ 0) :
    ∀ (items : List JVal) (cIdx i : Nat) (d : String × Nat × List JVal),
      d ∈ chunkDescr md5 clock key chunkSize cIdx i items →
      ∃ j cx, i ≤ j ∧ d.1 = generateId md5 (key ++ "-chunk-" ++ Nat.repr j) (clock cx) ∧
        d.2.1 = clock cx := by
  suffices h : ∀ (n : Nat) (items : List JVal), items.length = n →
      ∀ (cIdx i : Nat) (d : String × Nat × List JVal),
        d ∈ chunkDescr md5 clock key chunkSize cIdx i items →
        ∃ j cx, i ≤ j ∧ d.1 = generateId md5 (key ++ "-chunk-" ++ Nat.repr j) (clock cx) ∧
          d.2.1 = clock cx by
    intro items cIdx i d hd
    exact h items.length items rfl cIdx i d hd
  intro n
  induction n using Nat.strong_induction_on with
  | _ n ih =>
    intro items hl cIdx i d hd
    cases items with
    | nil => rw [chunkDescr_nil] at hd; simp at hd
    | cons x xs =>
      rw [chunkDescr_cons md5 clock key hcs] at hd
      rcases List.mem_cons.mp hd with h | h
      · exact ⟨i, cIdx, le_refl i, by rw [h], by rw [h]⟩
      · have hlen : ((x :: xs).drop chunkSize).length < n := by
          rw [← hl]
          simp only [List.length_drop, List.length_cons]
          omega
        obtain ⟨j, cx, hij, hid, ht⟩ := ih _ hlen _ rfl (cIdx + 1) (i + chunkSize) d h
        exact ⟨j, cx, by omega, hid, ht⟩

/-- The chunk ids are pairwise distinct when id generation is collision-free:
all chunk keys carry distinct offsets. -/
lemma chunkDescr_ids_nodup (md5 : String → String) (clock : Nat → Nat) (key : String)
    {chunkSize : Nat} (hcs : chunkSize ≠ 0)
    (hinj : ∀ k1 t1 k2 t2, generateId md5 k1 t1 = generateId md5 k2 t2 → k1 = k2 ∧ t1 = t2) :
    ∀ (items : List JVal) (cIdx i : Nat),
      ((chunkDescr md5 clock key chunkSize cIdx i items).map (fun d => d.1)).Nodup := by
  suffices h : ∀ (n : Nat) (items : List JVal), items.length = n → ∀ (cIdx i : Nat),
      ((chunkDescr md5 clock key chunkSize cIdx i items).map (fun d => d.1)).Nodup by
    intro items cIdx i
    exact h items.length items rfl cIdx i
  intro n
  induction n using Nat.strong_induction_on with
  | _ n ih =>
    intro items hl cIdx i
    cases items with
    | nil => simp [chunkDescr_nil]
    | cons x xs =>
      rw [chunkDescr_cons md5 clock key hcs]
      simp only [List.map_cons, List.nodup_cons]
      have hlen : ((x :: xs).drop chunkSize).length < n := by
        rw [← hl]
        simp only [List.length_drop, List.length_cons]
        omega
      constructor
      · intro hmem
        obtain ⟨d, hd, hid⟩ := List.mem_map.mp hmem
        obtain ⟨j, cx, hij, hidj, _⟩ := chunkDescr_mem_shape md5 clock key hcs _
          (cIdx + 1) (i + chunkSize) d hd
        rw [hidj] at hid
        have hkeys := (hinj _ _ _ _ hid.symm).1
        have : i = j := chunkKey_inj key hkeys
        omega
      · exact ih _ hlen _ rfl (cIdx + 1) (i + chunkSize)

/-- Characterization of the chunk loop: it returns the ids recorded by
`chunkDescr`, touches only the cache namespace, adds no file or index entry
beyond the chunk ids and chunk keys, and establishes `chunkFilesInv`. -/
lemma storeChunksAux_spec (md5 : String → String) (jsize : JVal → Nat) (maxCacheAge : Nat)
    (clock : Nat → Nat) (key datasetId : String) {chunkSize : Nat} (totalChunks : Nat)
    (metadata : List (String × JVal)) (hcs : chunkSize ≠ 0) :
    ∀ (items : List JVal) (cIdx i : Nat) (s : Store), ∃ s1,
      storeChunksAux md5 jsize maxCacheAge clock key datasetId chunkSize totalChunks
          metadata cIdx i items s
        = ((chunkDescr md5 clock key chunkSize cIdx i items).map (fun d => d.1), s1) ∧
      (∀ ns, ns ≠ NS.cache → s1.files ns = s.files ns ∧ s1.index ns = s.index ns) ∧
      (∀ q, q ∉ (chunkDescr md5 clock key chunkSize cIdx i items).map (fun d => d.1) →
        List.lookup q (s1.files NS.cache) = List.lookup q (s.files NS.cache)) ∧
      (∀ q, (∀ j : Nat, q ≠ key ++ "-chunk-" ++ Nat.repr j) →
        List.lookup q (s1.index NS.cache) = List.lookup q (s.index NS.cache)) ∧
      chunkFilesInv maxCacheAge (chunkDescr md5 clock key chunkSize cIdx i items)
        (s1.files NS.cache) := by
  suffices h : ∀ (n : Nat) (items : List JVal), items.length = n →
      ∀ (cIdx i : Nat) (s : Store), ∃ s1,
      storeChunksAux md5 jsize maxCacheAge clock key datasetId chunkSize totalChunks
          metadata cIdx i items s
        = ((chunkDescr md5 clock key chunkSize cIdx i items).map (fun d => d.1), s1) ∧
      (∀ ns, ns ≠ NS.cache → s1.files ns = s.files ns ∧ s1.index ns = s.index ns) ∧
      (∀ q, q ∉ (chunkDescr md5 clock key chunkSize cIdx i items).map (fun d => d.1) →
        List.lookup q (s1.files NS.cache) = List.lookup q (s.files NS.cache)) ∧
      (∀ q, (∀ j : Nat, q ≠ key ++ "-chunk-" ++ Nat.repr j) →
        List.lookup q (s1.index NS.cache) = List.lookup q (s.index NS.cache)) ∧
      chunkFilesInv maxCacheAge (chunkDescr md5 clock key chunkSize cIdx i items)
        (s1.files NS.cache) by
    intro items cIdx i s
    exact h items.length items rfl cIdx i s
  intro n
  induction n using Nat.strong_induction_on with
  | _ n ih =>
    intro items hl cIdx i s
    cases items with
    | nil =>
      refine ⟨s, ?_, fun ns _ => ⟨rfl, rfl⟩, fun q _ => rfl, fun q _ => rfl, ?_⟩
      · rw [storeChunksAux, chunkDescr_nil]
        rfl
      · rw [chunkDescr_nil]
        trivial
    | cons x xs =>
      have hlen : ((x :: xs).drop chunkSize).length < n := by
        rw [← hl]
        simp only [List.length_drop, List.length_cons]
        omega
      obtain ⟨s1, heq, hns, hfiles, hindex, hinv⟩ :=
        ih _ hlen ((x :: xs).drop chunkSize) rfl (cIdx + 1) (i + chunkSize)
          (setIndex (setFiles s NS.cache (upsert (s.files NS.cache)
              (generateId md5 (key ++ "-chunk-" ++ Nat.repr i) (clock cIdx))
              { id := generateId md5 (key ++ "-chunk-" ++ Nat.repr i) (clock cIdx),
                type := NS.cache, timestamp := clock cIdx,
                expiresAt := some (expiryOf maxCacheAge none (clock cIdx)),
                metadata := ("key", JVal.str (key ++ "-chunk-" ++ Nat.repr i)) ::
                  ("size", JVal.num (jsize (JVal.arr ((x :: xs).take chunkSize)))) ::
                  ("datasetId", JVal.str datasetId) ::
                  ("chunkIndex", JVal.num ((i / chunkSize : Nat) : Int)) ::
                  ("totalChunks", JVal.num (totalChunks : Int)) :: metadata,
                data := JVal.arr ((x :: xs).take chunkSize) }))
            NS.cache (upsert (s.index NS.cache) (key ++ "-chunk-" ++ Nat.repr i)
              (generateId md5 (key ++ "-chunk-" ++ Nat.repr i) (clock cIdx))))
      have hstep : storeChunksAux md5 jsize maxCacheAge clock key datasetId chunkSize
          totalChunks metadata cIdx i (x :: xs) s
          = ((chunkDescr md5 clock key chunkSize cIdx i (x :: xs)).map (fun d => d.1), s1) := by
        rw [storeChunksAux]
        rw [dif_neg hcs]
        simp only [store_eq]
        rw [heq]
        rw [chunkDescr_cons md5 clock key hcs]
        simp
      refine ⟨s1, hstep, ?_, ?_, ?_, ?_⟩
      · intro ns hne
        obtain ⟨hf, hi⟩ := hns ns hne
        rw [hf, hi]
        constructor
        · rw [setIndex_files, setFiles_files_other _ _ _ _ hne]
        · rw [setIndex_index_other _ _ _ _ hne, setFiles_index]
      · intro q hq
        rw [chunkDescr_cons md5 clock key hcs, List.map_cons] at hq
        have hq1 : q ≠ generateId md5 (key ++ "-chunk-" ++ Nat.repr i) (clock cIdx) := by
          intro hh
          exact hq (hh ▸ List.mem_cons_self _ _)
        have hq2 := fun hh => hq (List.mem_cons_of_mem _ hh)
        rw [hfiles q hq2]
        rw [setIndex_files, setFiles_files_same]
        exact lookup_upsert_ne _ _ _ _ hq1
      · intro q hq
        rw [hindex q hq]
        rw [setIndex_index_same]
        exact lookup_upsert_ne _ _ _ _ (hq i)
      · rw [chunkDescr_cons md5 clock key hcs]
        constructor
        · intro hnotin
          have hlk := hfiles _ hnotin
          rw [setIndex_files, setFiles_files_same, lookup_upsert_self] at hlk
          exact ⟨_, hlk, rfl, rfl⟩
        · exact hinv

/-- `chunkFilesInv` survives writing a file whose name is none of the chunk
ids. -/
lemma chunkFilesInv_upsert (maxCacheAge : Nat) (name : String) (r : StoredData) :
    ∀ (descr : List (String × Nat × List JVal)) (files : List (String × StoredData)),
      name ∉ descr.map (fun d => d.1) → chunkFilesInv maxCacheAge descr files →
      chunkFilesInv maxCacheAge descr (upsert files name r) := by
  intro descr
  induction descr with
  | nil => intro files _ _; trivial
  | cons d rest ih =>
    intro files hfresh hinv
    obtain ⟨id, t, slice⟩ := d
    simp only [List.map_cons, List.mem_cons] at hfresh
    push_neg at hfresh
    obtain ⟨hhead, htail⟩ := hinv
    refine ⟨?_, ih files (by simpa using hfresh.2) htail⟩
    intro hnotin
    obtain ⟨rec, hlk, hdata, hexp⟩ := hhead hnotin
    exact ⟨rec, by rw [lookup_upsert_ne _ _ _ _ (Ne.symm hfresh.1)]; exact hlk, hdata, hexp⟩

/-- With pairwise distinct ids the conditional invariant gives every chunk
unconditionally. -/
lemma chunkFilesInv_to_forall (maxCacheAge : Nat) :
    ∀ (descr : List (String × Nat × List JVal)) (files : List (String × StoredData)),
      ((descr.map (fun d => d.1)).Nodup) → chunkFilesInv maxCacheAge descr files →
      ∀ d ∈ descr, ∃ rec, List.lookup d.1 files = some rec ∧
        rec.data = JVal.arr d.2.2 ∧ rec.expiresAt = some (d.2.1 + maxCacheAge) := by
  intro descr
  induction descr with
  | nil => intro files _ _ d hd; simp at hd
  | cons d0 rest ih =>
    intro files hnd hinv d hd
    obtain ⟨id, t, slice⟩ := d0
    simp only [List.map_cons, List.nodup_cons] at hnd
    obtain ⟨hhead, htail⟩ := hinv
    rcases List.mem_cons.mp hd with h | h
    · subst h
      exact hhead hnd.1
    · exact ih files hnd.2 htail d h

/-- The chunk-loading loop returns the concatenated payloads, in order, when
every chunk id resolves to a live array record; the state is untouched. -/
lemma collectChunks_all (now : Nat) (maxCacheAge : Nat) :
    ∀ (descr : List (String × Nat × List JVal)) (S : Store),
      (∀ d ∈ descr, ∃ rec, List.lookup d.1 (S.files NS.cache) = some rec ∧
        rec.data = JVal.arr d.2.2 ∧ rec.expiresAt = some (d.2.1 + maxCacheAge) ∧
        ¬ (d.2.1 + maxCacheAge < now)) →
      collectChunks now (descr.map (fun d => JVal.str d.1)) S
        = ((descr.map (fun d => d.2.2)).flatten, S) := by
  intro descr
  induction descr with
  | nil => intro S _; rw [List.map_nil, collectChunks, List.map_nil]; rfl
  | cons d0 rest ih =>
    intro S hres
    obtain ⟨id, t, slice⟩ := d0
    obtain ⟨rec, hlk, hdata, hexp, hlive⟩ := hres _ (List.mem_cons_self _ _)
    have hretr : retrieve S NS.cache id now = (some rec, S) := by
      rw [retrieve]
      simp only [hlk]
      simp [checkExpired, isLive, hexp, hlive]
    rw [List.map_cons, collectChunks]
    simp only [hretr]
    rw [ih S (fun d hd => hres d (List.mem_cons_of_mem _ hd))]
    simp [hdata, spreadElems]

/-- C2: `storeDataset` followed by `retrieveDataset` under the same key, from a
fresh store, at any instant before any involved record expires, returns exactly
the original items. `hinj` is the id-uniqueness invariant of the specification
(collision-freedom of the truncated-hash id), and `hfreshD` says no generated
id collides with the manifest lookup key `dataset-${key}` (ids are
hash-dash-digits strings). Holds for any chunkSize ≥ 1 and any item count —
below, equal to, and above chunkSize. -/
theorem c2_round_trip (md5 : String → String) (jsize : JVal → Nat) (maxCacheAge : Nat)
    (key : String) (items : List JVal) (chunkSize : Nat) (metadata : List (String × JVal))
    (clock : Nat → Nat) (rnow : Nat)
    (hcs : chunkSize ≠ 0)
    (hinj : ∀ k1 t1 k2 t2, generateId md5 k1 t1 = generateId md5 k2 t2 → k1 = k2 ∧ t1 = t2)
    (hfreshD : ∀ k t, generateId md5 k t ≠ "dataset-" ++ key)
    (hexp : ∀ j, rnow ≤ clock j + maxCacheAge) :
    (retrieveDataset (storeDataset md5 jsize maxCacheAge emptyStore key items chunkSize
        metadata clock).2 key rnow).1 = some items := by
  obtain ⟨s1, heq, hns, hfiles, hindex, hinv⟩ :=
    storeChunksAux_spec md5 jsize maxCacheAge clock key
      (generateId md5 ("dataset-" ++ key) (clock 0))
      ((items.length + chunkSize - 1) / chunkSize) metadata hcs items 1 0 emptyStore
  set descr := chunkDescr md5 clock key chunkSize 1 0 items with hdescr
  set ids := descr.map (fun d => d.1) with hids
  set manId := generateId md5 ("dataset-" ++ key) (clock (ids.length + 1)) with hmanId
  set manifest : JVal := JVal.obj [("datasetId", JVal.str (generateId md5 ("dataset-" ++ key) (clock 0))),
    ("key", JVal.str key), ("totalItems", JVal.num (items.length : Int)),
    ("chunkSize", JVal.num (chunkSize : Int)), ("chunks", JVal.arr (ids.map JVal.str)),
    ("metadata", JVal.obj metadata)] with hman
  set manrec : StoredData :=
    { id := manId, type := NS.cache, timestamp := clock (ids.length + 1),
      expiresAt := some (expiryOf maxCacheAge none (clock (ids.length + 1))),
      metadata := ("key", JVal.str ("dataset-" ++ key)) :: ("size", JVal.num (jsize manifest)) :: metadata,
      data := manifest } with hmanrec
  have hsd : (storeDataset md5 jsize maxCacheAge emptyStore key items chunkSize
      metadata clock).2
      = setIndex (setFiles s1 NS.cache (upsert (s1.files NS.cache) manId manrec)) NS.cache
          (upsert (s1.index NS.cache) ("dataset-" ++ key) manId) := by
    rw [storeDataset]
    simp only [heq]
    rw [store_eq]
  rw [hsd]
  have hmanfresh : manId ∉ ids := by
    intro hmem
    rw [hids] at hmem
    obtain ⟨d, hd, hide⟩ := List.mem_map.mp hmem
    obtain ⟨j, cx, _, hidj, _⟩ := chunkDescr_mem_shape md5 clock key hcs items 1 0 d hd
    rw [hidj] at hide
    have := (hinj _ _ _ _ hide).1
    exact datasetKey_ne_chunkKey key j (by rw [← this])
  have hdsk_notin : ("dataset-" ++ key) ∉ ids := by
    intro hmem
    rw [hids] at hmem
    obtain ⟨d, hd, hide⟩ := List.mem_map.mp hmem
    obtain ⟨j, cx, _, hidj, _⟩ := chunkDescr_mem_shape md5 clock key hcs items 1 0 d hd
    rw [hidj] at hide
    exact hfreshD _ _ hide
  have hretr : retrieve (setIndex (setFiles s1 NS.cache (upsert (s1.files NS.cache) manId manrec))
      NS.cache (upsert (s1.index NS.cache) ("dataset-" ++ key) manId)) NS.cache
      ("dataset-" ++ key) rnow = (some manrec,
        setIndex (setFiles s1 NS.cache (upsert (s1.files NS.cache) manId manrec)) NS.cache
          (upsert (s1.index NS.cache) ("dataset-" ++ key) manId)) := by
    rw [retrieve]
    have h1 : List.lookup ("dataset-" ++ key)
        ((setIndex (setFiles s1 NS.cache (upsert (s1.files NS.cache) manId manrec)) NS.cache
          (upsert (s1.index NS.cache) ("dataset-" ++ key) manId)).files NS.cache) = none := by
      rw [setIndex_files, setFiles_files_same]
      rw [lookup_upsert_ne _ _ _ _ (fun hh => hfreshD _ _ hh.symm)]
      rw [hfiles _ hdsk_notin]
      rfl
    simp only [h1]
    have h2 : List.lookup ("dataset-" ++ key)
        ((setIndex (setFiles s1 NS.cache (upsert (s1.files NS.cache) manId manrec)) NS.cache
          (upsert (s1.index NS.cache) ("dataset-" ++ key) manId)).index NS.cache)
        = some manId := by
      rw [setIndex_index_same, lookup_upsert_self]
    simp only [h2]
    have h3 : List.lookup manId
        ((setIndex (setFiles s1 NS.cache (upsert (s1.files NS.cache) manId manrec)) NS.cache
          (upsert (s1.index NS.cache) ("dataset-" ++ key) manId)).files NS.cache)
        = some manrec := by
      rw [setIndex_files, setFiles_files_same, lookup_upsert_self]
    simp only [h3]
    simp [checkExpired, isLive, hmanrec, expiryOf, Nat.not_lt.mpr (hexp (ids.length + 1))]
  rw [retrieveDataset]
  simp only [hretr]
  have hforall := chunkFilesInv_to_forall maxCacheAge descr
    (upsert (s1.files NS.cache) manId manrec)
    (by rw [← hids]; exact chunkDescr_ids_nodup md5 clock key hcs hinj items 1 0)
    (chunkFilesInv_upsert maxCacheAge manId manrec descr (s1.files NS.cache)
      (by rw [← hids]; exact hmanfresh) hinv)
  have hwalk := collectChunks_all rnow maxCacheAge descr
    (setIndex (setFiles s1 NS.cache (upsert (s1.files NS.cache) manId manrec)) NS.cache
      (upsert (s1.index NS.cache) ("dataset-" ++ key) manId))
    (by
      intro d hd
      obtain ⟨rec, hlk, hdata, hexp2⟩ := hforall d hd
      obtain ⟨j, cx, _, _, ht⟩ := chunkDescr_mem_shape md5 clock key hcs items 1 0 d hd
      refine ⟨rec, ?_, hdata, hexp2, ?_⟩
      · rw [setIndex_files, setFiles_files_same]
        exact hlk
      · rw [ht]
        exact Nat.not_lt.mpr (hexp cx))
  have hchunks2 : List.lookup "chunks"
      [("datasetId", JVal.str (generateId md5 ("dataset-" ++ key) (clock 0))),
       ("key", JVal.str key), ("totalItems", JVal.num (items.length : Int)),
       ("chunkSize", JVal.num (chunkSize : Int)), ("chunks", JVal.arr (ids.map JVal.str)),
       ("metadata", JVal.obj metadata)]
      = some (JVal.arr (ids.map JVal.str)) := by
    simp +decide [List.lookup]
  simp only [hchunks2]
  have hmapmap : ids.map JVal.str = descr.map (fun d => JVal.str d.1) := by
    rw [hids, List.map_map]
    rfl
  rw [hmapmap]
  simp only [hwalk]
  rw [chunkDescr_join md5 clock key hcs items 1 0]

/-- C2 (witness): the round trip with three items in chunks of two, the
identity clock, and a read at instant 50 well before the default age of 100. -/
theorem c2_witness :
    (retrieveDataset (storeDataset hashW (fun _ => 0) 100 emptyStore "k"
        [JVal.num 1, JVal.num 2, JVal.num 3] 2 [] (fun n => n)).2 "k" 50).1
      = some [JVal.num 1, JVal.num 2, JVal.num 3] :=
  c2_round_trip hashW (fun _ => 0) 100 "k" [JVal.num 1, JVal.num 2, JVal.num 3] 2 []
    (fun n => n) 50 (by omega)
    (fun k1 t1 k2 t2 h => hashW_id_inj k1 k2 t1 t2 h)
    (fun k t => hashW_ne_datasetKey k t)
    (fun j => by omega)

/-! ### C10 — partial datasets -/

lemma contains_false_of_not_mem (names : List String) (q : String) (h : q ∉ names) :
    names.contains q = false := by
  rw [Bool.eq_false_iff]
  intro hc
  exact h (List.elem_iff.mp hc)

lemma contains_true_of_mem (names : List String) (q : String) (h : q ∈ names) :
    names.contains q = true := List.elem_iff.mpr h

lemma lookup_filter_out {β : Type} (names : List String) (q : String)
    (h : names.contains q = true) :
    ∀ l : List (String × β),
      List.lookup q (l.filter (fun p => ! names.contains p.1)) = none := by
  intro l
  induction l with
  | nil => rfl
  | cons p rest ih =>
    obtain ⟨k0, v0⟩ := p
    rw [List.filter_cons]
    by_cases hk : names.contains k0 = true
    · rw [hk]
      simpa using ih
    · rw [Bool.not_eq_true] at hk
      rw [hk]
      have hneq : q ≠ k0 := by
        intro hh
        rw [hh, hk] at h
        cases h
      have hbe : (q == k0) = false := by simp [beq_eq_false_iff_ne, hneq]
      rw [if_pos (by simp)]
      simp only [List.lookup, hbe]
      exact ih

lemma lookup_filter_keep {β : Type} (names : List String) (q : String)
    (h : names.contains q = false) :
    ∀ l : List (String × β),
      List.lookup q (l.filter (fun p => ! names.contains p.1)) = List.lookup q l := by
  intro l
  induction l with
  | nil => rfl
  | cons p rest ih =>
    obtain ⟨k0, v0⟩ := p
    rw [List.filter_cons]
    by_cases hk : names.contains k0 = true
    · rw [hk]
      have hne : q ≠ k0 := by
        intro hh
        rw [hh, hk] at h
        cases h
      have hbe : (q == k0) = false := by simp [beq_eq_false_iff_ne, hne]
      simp only [List.lookup, hbe]
      simpa using ih
    · rw [Bool.not_eq_true] at hk
      rw [hk]
      rw [if_pos (by simp)]
      simp only [List.lookup]
      cases hqe : q == k0
      · simpa using ih
      · simp

/-- The chunk-loading loop with some chunks missing: the missing ones resolve
to nothing (no file, no index entry) and are skipped; the surviving payloads
are concatenated in manifest order. -/
lemma collectChunks_partial (now maxCacheAge : Nat) (del : String → Bool) :
    ∀ (descr : List (String × Nat × List JVal)) (S : Store),
      (∀ d ∈ descr, if del d.1 = true then
          List.lookup d.1 (S.files NS.cache) = none ∧
          List.lookup d.1 (S.index NS.cache) = none
        else ∃ rec, List.lookup d.1 (S.files NS.cache) = some rec ∧
          rec.data = JVal.arr d.2.2 ∧ rec.expiresAt = some (d.2.1 + maxCacheAge) ∧
          ¬ (d.2.1 + maxCacheAge < now)) →
      collectChunks now (descr.map (fun d => JVal.str d.1)) S
        = (((descr.filter (fun d => ! del d.1)).map (fun d => d.2.2)).flatten, S) := by
  intro descr
  induction descr with
  | nil => intro S _; rw [List.map_nil, collectChunks]; rfl
  | cons d0 rest ih =>
    intro S hres
    have hhead := hres _ (List.mem_cons_self _ _)
    have htail := fun d hd => hres d (List.mem_cons_of_mem _ hd)
    rw [List.map_cons, collectChunks]
    cases hdel : del d0.1 with
    | true =>
      rw [hdel] at hhead
      simp only [if_pos rfl] at hhead
      obtain ⟨hf, hi⟩ := hhead
      have hretr : retrieve S NS.cache d0.1 now = (none, S) := by
        rw [retrieve]
        simp only [hf, hi]
      simp only [hretr]
      rw [ih S htail]
      rw [List.filter_cons]
      simp [hdel]
    | false =>
      rw [hdel] at hhead
      simp only [Bool.false_eq_true, if_false] at hhead
      obtain ⟨rec, hlk, hdata, hexp, hlive⟩ := hhead
      have hretr : retrieve S NS.cache d0.1 now = (some rec, S) := by
        rw [retrieve]
        simp only [hlk]
        simp [checkExpired, isLive, hexp, hlive]
      simp only [hretr]
      rw [ih S htail]
      rw [List.filter_cons]
      simp [hdel, hdata, spreadElems]

/-- C10: when chunk records referenced by a surviving manifest are deleted
(the lazy-expiry analogue of missing chunks), `retrieveDataset` returns the
concatenation of the surviving chunks only, in manifest order, rather than
not-found; deleting the manifest record itself (second conjunct) is what makes
`retrieveDataset` return not-found. Hypotheses as in the round-trip theorem,
plus `hfreshC`: no generated id collides with a chunk lookup key. -/
theorem c10_surviving_chunks (md5 : String → String) (jsize : JVal → Nat) (maxCacheAge : Nat)
    (key : String) (items : List JVal) (chunkSize : Nat) (metadata : List (String × JVal))
    (clock : Nat → Nat) (rnow : Nat) (del : String → Bool)
    (hcs : chunkSize ≠ 0)
    (hinj : ∀ k1 t1 k2 t2, generateId md5 k1 t1 = generateId md5 k2 t2 → k1 = k2 ∧ t1 = t2)
    (hfreshD : ∀ k t, generateId md5 k t ≠ "dataset-" ++ key)
    (hfreshC : ∀ k t j, generateId md5 k t ≠ key ++ "-chunk-" ++ Nat.repr j)
    (hexp : ∀ j, rnow ≤ clock j + maxCacheAge) :
    (retrieveDataset (removeFilesBy (storeDataset md5 jsize maxCacheAge emptyStore key items
        chunkSize metadata clock).2 NS.cache
        (((chunkDescr md5 clock key chunkSize 1 0 items).filter
            (fun d => del d.1)).map (fun d => d.1))) key rnow).1
      = some ((((chunkDescr md5 clock key chunkSize 1 0 items).filter
          (fun d => ! del d.1)).map (fun d => d.2.2)).flatten) ∧
    (retrieveDataset (removeFilesBy (storeDataset md5 jsize maxCacheAge emptyStore key items
        chunkSize metadata clock).2 NS.cache
        [generateId md5 ("dataset-" ++ key)
          (clock ((List.map (fun d => d.1) (chunkDescr md5 clock key chunkSize 1 0 items)).length + 1))])
      key rnow).1 = none := by
  obtain ⟨s1, heq, hns, hfiles, hindex, hinv⟩ :=
    storeChunksAux_spec md5 jsize maxCacheAge clock key
      (generateId md5 ("dataset-" ++ key) (clock 0))
      ((items.length + chunkSize - 1) / chunkSize) metadata hcs items 1 0 emptyStore
  set descr := chunkDescr md5 clock key chunkSize 1 0 items with hdescr
  set ids := descr.map (fun d => d.1) with hids
  set manId := generateId md5 ("dataset-" ++ key) (clock (ids.length + 1)) with hmanId
  set manifest : JVal := JVal.obj [("datasetId", JVal.str (generateId md5 ("dataset-" ++ key) (clock 0))),
    ("key", JVal.str key), ("totalItems", JVal.num (items.length : Int)),
    ("chunkSize", JVal.num (chunkSize : Int)), ("chunks", JVal.arr (ids.map JVal.str)),
    ("metadata", JVal.obj metadata)] with hman
  set manrec : StoredData :=
    { id := manId, type := NS.cache, timestamp := clock (ids.length + 1),
      expiresAt := some (expiryOf maxCacheAge none (clock (ids.length + 1))),
      metadata := ("key", JVal.str ("dataset-" ++ key)) :: ("size", JVal.num (jsize manifest)) :: metadata,
      data := manifest } with hmanrec
  have hsd : (storeDataset md5 jsize maxCacheAge emptyStore key items chunkSize
      metadata clock).2
      = setIndex (setFiles s1 NS.cache (upsert (s1.files NS.cache) manId manrec)) NS.cache
          (upsert (s1.index NS.cache) ("dataset-" ++ key) manId) := by
    rw [storeDataset]
    simp only [heq]
    rw [store_eq]
  have hshape := fun d hd => chunkDescr_mem_shape md5 clock key hcs items 1 0 d hd
  have hmanfresh : manId ∉ ids := by
    intro hmem
    rw [hids] at hmem
    obtain ⟨d, hd, hide⟩ := List.mem_map.mp hmem
    obtain ⟨j, cx, _, hidj, _⟩ := hshape d hd
    rw [hidj] at hide
    have := (hinj _ _ _ _ hide).1
    exact datasetKey_ne_chunkKey key j (by rw [← this])
  have hdsk_notin : ("dataset-" ++ key) ∉ ids := by
    intro hmem
    rw [hids] at hmem
    obtain ⟨d, hd, hide⟩ := List.mem_map.mp hmem
    obtain ⟨j, cx, _, hidj, _⟩ := hshape d hd
    rw [hidj] at hide
    exact hfreshD _ _ hide
  have hnodup : ids.Nodup := by
    rw [hids]
    exact chunkDescr_ids_nodup md5 clock key hcs hinj items 1 0
  have hforall := chunkFilesInv_to_forall maxCacheAge descr
    (upsert (s1.files NS.cache) manId manrec)
    (by rw [← hids]; exact hnodup)
    (chunkFilesInv_upsert maxCacheAge manId manrec descr (s1.files NS.cache)
      (by rw [← hids]; exact hmanfresh) hinv)
  have hmemids : ∀ d ∈ descr, d.1 ∈ ids := by
    intro d hd
    rw [hids]
    exact List.mem_map_of_mem _ hd
  have hidxnone : ∀ a ∈ ids, List.lookup a
      ((setIndex (setFiles s1 NS.cache (upsert (s1.files NS.cache) manId manrec)) NS.cache
        (upsert (s1.index NS.cache) ("dataset-" ++ key) manId)).index NS.cache) = none := by
    intro a ha
    rw [hids] at ha
    obtain ⟨d, hd, hida⟩ := List.mem_map.mp ha
    obtain ⟨j, cx, _, hidj, _⟩ := hshape d hd
    rw [setIndex_index_same]
    rw [lookup_upsert_ne _ _ _ _ (by rw [← hida, hidj]; exact hfreshD _ _)]
    rw [hindex a (by rw [← hida, hidj]; exact fun j2 => hfreshC _ _ j2)]
    rfl
  constructor
  · -- part A: some chunk files deleted, manifest intact
    set dead := (descr.filter (fun d => del d.1)).map (fun d => d.1) with hdead
    have hdeadsub : ∀ a ∈ dead, a ∈ ids := by
      intro a ha
      rw [hdead] at ha
      obtain ⟨d, hd, hida⟩ := List.mem_map.mp ha
      exact hida ▸ hmemids d (List.mem_of_mem_filter hd)
    rw [hsd]
    rw [removeFilesBy]
    have hnotdead_dsk : dead.contains ("dataset-" ++ key) = false :=
      contains_false_of_not_mem _ _ (fun hh => hdsk_notin (hdeadsub _ hh))
    have hnotdead_man : dead.contains manId = false :=
      contains_false_of_not_mem _ _ (fun hh => hmanfresh (hdeadsub _ hh))
    have hretr : retrieve (setFiles (setIndex (setFiles s1 NS.cache
        (upsert (s1.files NS.cache) manId manrec)) NS.cache
        (upsert (s1.index NS.cache) ("dataset-" ++ key) manId)) NS.cache
        ((((setIndex (setFiles s1 NS.cache (upsert (s1.files NS.cache) manId manrec)) NS.cache
          (upsert (s1.index NS.cache) ("dataset-" ++ key) manId)).files NS.cache).filter
            (fun p => ! dead.contains p.1)))) NS.cache ("dataset-" ++ key) rnow
        = (some manrec, setFiles (setIndex (setFiles s1 NS.cache
            (upsert (s1.files NS.cache) manId manrec)) NS.cache
            (upsert (s1.index NS.cache) ("dataset-" ++ key) manId)) NS.cache
            ((((setIndex (setFiles s1 NS.cache (upsert (s1.files NS.cache) manId manrec)) NS.cache
              (upsert (s1.index NS.cache) ("dataset-" ++ key) manId)).files NS.cache).filter
                (fun p => ! dead.contains p.1)))) := by
      rw [retrieve]
      have h1 : List.lookup ("dataset-" ++ key)
          ((((setIndex (setFiles s1 NS.cache (upsert (s1.files NS.cache) manId manrec)) NS.cache
            (upsert (s1.index NS.cache) ("dataset-" ++ key) manId)).files NS.cache).filter
              (fun p => ! dead.contains p.1))) = none := by
        rw [lookup_filter_keep _ _ hnotdead_dsk]
        rw [setIndex_files, setFiles_files_same]
        rw [lookup_upsert_ne _ _ _ _ (fun hh => hfreshD _ _ hh.symm)]
        rw [hfiles _ hdsk_notin]
        rfl
      rw [setFiles_files_same]
      simp only [h1]
      have h2 : List.lookup ("dataset-" ++ key)
          ((setFiles (setIndex (setFiles s1 NS.cache (upsert (s1.files NS.cache) manId manrec))
            NS.cache (upsert (s1.index NS.cache) ("dataset-" ++ key) manId)) NS.cache
            ((((setIndex (setFiles s1 NS.cache (upsert (s1.files NS.cache) manId manrec)) NS.cache
              (upsert (s1.index NS.cache) ("dataset-" ++ key) manId)).files NS.cache).filter
                (fun p => ! dead.contains p.1)))).index NS.cache) = some manId := by
        rw [setFiles_index, setIndex_index_same, lookup_upsert_self]
      simp only [h2]
      have h3 : List.lookup manId
          (List.filter (fun p => ! dead.contains p.1)
            ((setIndex (setFiles s1 NS.cache (upsert (s1.files NS.cache) manId manrec)) NS.cache
              (upsert (s1.index NS.cache) ("dataset-" ++ key) manId)).files NS.cache))
          = some manrec := by
        rw [lookup_filter_keep _ _ hnotdead_man]
        rw [setIndex_files, setFiles_files_same, lookup_upsert_self]
      rw [h3]
      simp [checkExpired, isLive, hmanrec, expiryOf, Nat.not_lt.mpr (hexp (ids.length + 1))]
    rw [retrieveDataset]
    simp only [hretr]
    have hchunks2 : List.lookup "chunks"
        [("datasetId", JVal.str (generateId md5 ("dataset-" ++ key) (clock 0))),
         ("key", JVal.str key), ("totalItems", JVal.num (items.length : Int)),
         ("chunkSize", JVal.num (chunkSize : Int)), ("chunks", JVal.arr (ids.map JVal.str)),
         ("metadata", JVal.obj metadata)]
        = some (JVal.arr (ids.map JVal.str)) := by
      simp +decide [List.lookup]
    simp only [hchunks2]
    have hmapmap : ids.map JVal.str = descr.map (fun d => JVal.str d.1) := by
      rw [hids, List.map_map]
      rfl
    rw [hmapmap]
    have hwalk := collectChunks_partial rnow maxCacheAge del descr
      (setFiles (setIndex (setFiles s1 NS.cache (upsert (s1.files NS.cache) manId manrec))
        NS.cache (upsert (s1.index NS.cache) ("dataset-" ++ key) manId)) NS.cache
        ((((setIndex (setFiles s1 NS.cache (upsert (s1.files NS.cache) manId manrec)) NS.cache
          (upsert (s1.index NS.cache) ("dataset-" ++ key) manId)).files NS.cache).filter
            (fun p => ! dead.contains p.1))))
      (by
        intro d hd
        cases hdel : del d.1 with
        | true =>
          simp only [if_pos rfl]
          constructor
          · rw [setFiles_files_same]
            apply lookup_filter_out
            apply contains_true_of_mem
            rw [hdead]
            exact List.mem_map_of_mem _ (List.mem_filter.mpr ⟨hd, hdel⟩)
          · rw [setFiles_index]
            exact hidxnone _ (hmemids d hd)
        | false =>
          simp only [Bool.false_eq_true, if_false]
          obtain ⟨rec, hlk, hdata, hexp2⟩ := hforall d hd
          obtain ⟨j, cx, _, _, ht⟩ := hshape d hd
          have hnotdead : dead.contains d.1 = false := by
            apply contains_false_of_not_mem
            intro hh
            rw [hdead] at hh
            obtain ⟨d2, hd2, hid2⟩ := List.mem_map.mp hh
            have hd2mem := List.mem_of_mem_filter hd2
            have hd2del := (List.mem_filter.mp hd2).2
            have : d2 = d := by
              have hinjon := List.inj_on_of_nodup_map (l := descr) (f := fun d => d.1)
                (by rw [← hids]; exact hnodup)
              exact hinjon hd2mem hd hid2
            rw [this] at hd2del
            rw [hdel] at hd2del
            cases hd2del
          refine ⟨rec, ?_, hdata, hexp2, ?_⟩
          · rw [setFiles_files_same]
            rw [lookup_filter_keep _ _ hnotdead]
            rw [setIndex_files, setFiles_files_same]
            exact hlk
          · rw [ht]
            exact Nat.not_lt.mpr (hexp cx))
    simp only [hwalk]
  · -- part B: manifest deleted
    rw [hsd]
    rw [removeFilesBy]
    rw [retrieveDataset]
    have hretr : retrieve (setFiles (setIndex (setFiles s1 NS.cache
        (upsert (s1.files NS.cache) manId manrec)) NS.cache
        (upsert (s1.index NS.cache) ("dataset-" ++ key) manId)) NS.cache
        ((((setIndex (setFiles s1 NS.cache (upsert (s1.files NS.cache) manId manrec)) NS.cache
          (upsert (s1.index NS.cache) ("dataset-" ++ key) manId)).files NS.cache).filter
            (fun p => ! [manId].contains p.1)))) NS.cache ("dataset-" ++ key) rnow
        = (none, setFiles (setIndex (setFiles s1 NS.cache
            (upsert (s1.files NS.cache) manId manrec)) NS.cache
            (upsert (s1.index NS.cache) ("dataset-" ++ key) manId)) NS.cache
            ((((setIndex (setFiles s1 NS.cache (upsert (s1.files NS.cache) manId manrec)) NS.cache
              (upsert (s1.index NS.cache) ("dataset-" ++ key) manId)).files NS.cache).filter
                (fun p => ! [manId].contains p.1)))) := by
      rw [retrieve]
      have hdskman : ([manId] : List String).contains ("dataset-" ++ key) = false := by
        apply contains_false_of_not_mem
        intro hh
        rcases List.mem_singleton.mp hh with h
        exact hfreshD _ _ h.symm
      have h1 : List.lookup ("dataset-" ++ key)
          ((((setIndex (setFiles s1 NS.cache (upsert (s1.files NS.cache) manId manrec)) NS.cache
            (upsert (s1.index NS.cache) ("dataset-" ++ key) manId)).files NS.cache).filter
              (fun p => ! ([manId] : List String).contains p.1))) = none := by
        rw [lookup_filter_keep _ _ hdskman]
        rw [setIndex_files, setFiles_files_same]
        rw [lookup_upsert_ne _ _ _ _ (fun hh => hfreshD _ _ hh.symm)]
        rw [hfiles _ hdsk_notin]
        rfl
      rw [setFiles_files_same]
      simp only [h1]
      have h2 : List.lookup ("dataset-" ++ key)
          ((setFiles (setIndex (setFiles s1 NS.cache (upsert (s1.files NS.cache) manId manrec))
            NS.cache (upsert (s1.index NS.cache) ("dataset-" ++ key) manId)) NS.cache
            ((((setIndex (setFiles s1 NS.cache (upsert (s1.files NS.cache) manId manrec)) NS.cache
              (upsert (s1.index NS.cache) ("dataset-" ++ key) manId)).files NS.cache).filter
                (fun p => ! ([manId] : List String).contains p.1)))).index NS.cache)
          = some manId := by
        rw [setFiles_index, setIndex_index_same, lookup_upsert_self]
      simp only [h2]
      have h3 : List.lookup manId
          (List.filter (fun p => ! ([manId] : List String).contains p.1)
            ((setIndex (setFiles s1 NS.cache (upsert (s1.files NS.cache) manId manrec)) NS.cache
              (upsert (s1.index NS.cache) ("dataset-" ++ key) manId)).files NS.cache)) = none := by
        apply lookup_filter_out
        exact contains_true_of_mem _ _ (List.mem_singleton.mpr rfl)
      rw [h3]
    simp only [hretr]

/-- C10 (witness): three items in chunks of two; deleting the first chunk file
leaves `retrieveDataset` returning the surviving second chunk, and deleting the
manifest file makes it return not-found. -/
theorem c10_witness :
    (retrieveDataset (removeFilesBy (storeDataset hashW (fun _ => 0) 100 emptyStore "k"
        [JVal.num 1, JVal.num 2, JVal.num 3] 2 [] (fun n => n)).2 NS.cache
        (((chunkDescr hashW (fun n => n) "k" 2 1 0 [JVal.num 1, JVal.num 2, JVal.num 3]).filter
            (fun d => d.1 == generateId hashW ("k" ++ "-chunk-" ++ Nat.repr 0) 1)).map
          (fun d => d.1))) "k" 50).1
      = some (List.flatten (List.map (fun d => d.2.2)
          (List.filter (fun d => ! (d.1 == generateId hashW ("k" ++ "-chunk-" ++ Nat.repr 0) 1))
            (chunkDescr hashW (fun n => n) "k" 2 1 0 [JVal.num 1, JVal.num 2, JVal.num 3])))) ∧
    (retrieveDataset (removeFilesBy (storeDataset hashW (fun _ => 0) 100 emptyStore "k"
        [JVal.num 1, JVal.num 2, JVal.num 3] 2 [] (fun n => n)).2 NS.cache
        [generateId hashW ("dataset-" ++ "k")
          ((List.map (fun d => d.1) (chunkDescr hashW (fun n => n) "k" 2 1 0
            [JVal.num 1, JVal.num 2, JVal.num 3])).length + 1)]) "k" 50).1 = none := by
  have h := c10_surviving_chunks hashW (fun _ => 0) 100 "k"
    [JVal.num 1, JVal.num 2, JVal.num 3] 2 [] (fun n => n) 50
    (fun a => a == generateId hashW ("k" ++ "-chunk-" ++ Nat.repr 0) 1)
    (by omega) (fun k1 t1 k2 t2 hh => hashW_id_inj k1 k2 t1 t2 hh)
    (fun k t => hashW_ne_datasetKey k t) (fun k t j => hashW_ne_chunkKey k t j)
    (fun j => by omega)
  exact ⟨h.1, h.2⟩
